import Mathlib

/-!
# Verification of the obsidian-markitdown external-folder synchronization engine

A shallow embedding of the folder-synchronization and deduplication logic of the
obsidian-markitdown plugin (files `src/main.ts`,
`src/services/EventHandlingService.ts`, `src/services/FileConversionService.ts`,
`src/services/FileSystemService.ts`).

Modelling conventions:
* Filesystem paths are lists of segments (`VPath`), all relative to the vault
  base directory (the code prefixes every destination path with the vault base
  path obtained from the `FileSystemAdapter`; taking the vault base as the root
  of the model erases that common prefix).
* The vault filesystem is a finite association list from paths to file contents
  plus an explicit set of directories (`FS`); `readdir` traversal order of the
  recursive searches is modelled by the order of the association list.
* JavaScript string operations (`startsWith`, `endsWith`) are modelled on the
  character lists underlying Lean strings.
* `Date.now()` and its string renderings are abstracted by a `now : Nat`
  parameter rendered with `toString`.
* Node's `crypto` SHA-256 is implemented directly (FIPS 180-4) over byte lists;
  a stream of chunks is hashed as the hash of their concatenation, which is the
  contract of `Hash.update`/`Hash.digest` used by `computeFileHash`.
-/

/-! ## JavaScript string operations -/

/-- Model of JavaScript `String.prototype.startsWith` on the underlying
character sequence. -/
def jsStartsWith (s pre : String) : Bool :=
  pre.data.isPrefixOf s.data

/-- Model of JavaScript `String.prototype.endsWith` on the underlying
character sequence. -/
def jsEndsWith (s post : String) : Bool :=
  post.data.isSuffixOf s.data

/-- Model of JavaScript `String.prototype.toLowerCase` on the underlying
character sequence (file extensions are ASCII). -/
def jsToLower (s : String) : String :=
  String.mk (s.data.map Char.toLower)

/-- Index of the last `'.'` in a character list, if any. -/
def lastDotIdx (cs : List Char) : Option Nat :=
  if cs.contains '.' then some (cs.length - 1 - cs.reverse.indexOf '.') else none

/-- Model of Node `path.extname` restricted to a base name: the substring from
the last `'.'` to the end, or `""` when there is no dot or the name starts with
its only dot (dotfiles have no extension). -/
def extname (name : String) : String :=
  match lastDotIdx name.data with
  | none => ""
  | some i => if i == 0 then "" else String.mk (name.data.drop i)

/-- Model of Node `path.basename(p, path.extname(p))`: the file name with its
extension (as computed by `extname`) removed. -/
def baseNameNoExt (name : String) : String :=
  String.mk (name.data.take (name.data.length - (extname name).data.length))

/-! ## Filesystem model -/

/-- A path, as a list of segments relative to the vault base directory. -/
abbrev VPath := List String

/-- Look up the first entry with the given key in an association list of
files. -/
def lookupAssoc : List (VPath × String) → VPath → Option String
  | [], _ => none
  | e :: rest, p => if e.1 = p then some e.2 else lookupAssoc rest p

/-- Overwrite the first entry with the given key, or append a new entry:
the behaviour of `fs.promises.writeFile`. -/
def updateAssoc : List (VPath × String) → VPath → String → List (VPath × String)
  | [], p, c => [(p, c)]
  | e :: rest, p, c => if e.1 = p then (p, c) :: rest else e :: updateAssoc rest p c

/-- Remove every entry with the given key: the behaviour of `fs.promises.unlink`
(and of the removal half of `fs.promises.rename`). -/
def removeAssoc (l : List (VPath × String)) (p : VPath) : List (VPath × String) :=
  l.filter (fun e => decide (e.1 ≠ p))

/-- The vault filesystem: files (path to content) and the set of directories
that exist. -/
structure FS where
  files : List (VPath × String)
  dirs : List VPath
deriving Repr, DecidableEq

def FS.getFile (fs : FS) (p : VPath) : Option String :=
  lookupAssoc fs.files p

def FS.fileExistsAt (fs : FS) (p : VPath) : Bool :=
  (lookupAssoc fs.files p).isSome

def FS.dirExistsAt (fs : FS) (p : VPath) : Bool :=
  fs.dirs.contains p

/-- All non-empty prefixes of a path. -/
def pathPrefixes (p : VPath) : List VPath :=
  (List.range p.length).map (fun i => p.take (i + 1))

/-- `fs.promises.mkdir(p, { recursive: true })`: create the directory and every
ancestor. -/
def FS.mkdirp (fs : FS) (p : VPath) : FS :=
  { fs with dirs := fs.dirs ++ (pathPrefixes p).filter (fun q => ¬ fs.dirs.contains q) }

/-- `fs.promises.writeFile`. -/
def FS.writeFileAt (fs : FS) (p : VPath) (c : String) : FS :=
  { fs with files := updateAssoc fs.files p c }

/-- `fs.promises.unlink` (no-op when the file is missing, as in
`FileSystemService.deleteFile`, which checks existence first). -/
def FS.removeFileAt (fs : FS) (p : VPath) : FS :=
  { fs with files := removeAssoc fs.files p }

/-- `fs.promises.rename` on a file: move the content of `src` to `dst`
(overwriting `dst`). Modelled as a no-op when `src` is missing; in every code
path below `rename` is only invoked on files found in the tree. -/
def FS.renameFile (fs : FS) (src dst : VPath) : FS :=
  match fs.getFile src with
  | none => fs
  | some c => (fs.removeFileAt src).writeFileAt dst c

/-- Names of the files directly inside directory `d`, in filesystem order:
the file half of `fs.promises.readdir(d)`. -/
def FS.filesIn (fs : FS) (d : VPath) : List String :=
  fs.files.filterMap (fun e =>
    match e.1.getLast? with
    | some n => if e.1.dropLast = d then some n else none
    | none => none)

/-- Does a file entry at path `p` lie in the live (non-archive) region below
`root`: its directory must be `root` or a descendant of `root` none of whose
intermediate segments is `.archive`? This is the set of files reachable by the
recursive searches that skip directories named `.archive`. -/
def liveUnder (root : VPath) (p : VPath) : Bool :=
  root.isPrefixOf p.dropLast && ¬ (p.dropLast.drop root.length).contains ".archive"

/-- Does a file entry at path `p` lie anywhere below `root` (no archive
exclusion)? This is the set of files reachable by `findFileInArchive`, whose
recursion descends into every subdirectory. -/
def anywhereUnder (root : VPath) (p : VPath) : Bool :=
  root.isPrefixOf p.dropLast

/-- The match predicate of the recursive live search on a path: the path is in
the non-archive region below `root` and its file name satisfies `pred`. -/
def liveMatchP (root : VPath) (pred : String → Bool) (p : VPath) : Bool :=
  liveUnder root p && (match p.getLast? with
    | some n => pred n
    | none => false)

/-- The live-search match predicate on a file entry (it only inspects the
path). -/
def liveMatch (root : VPath) (pred : String → Bool) (e : VPath × String) : Bool :=
  liveMatchP root pred e.1

/-- `findFileRecursively`: depth-first search below `root` skipping every
directory named `.archive`, returning the path of the first file whose name
satisfies `pred`. Traversal order is modelled by the order of `fs.files`. -/
def FS.findLive (fs : FS) (root : VPath) (pred : String → Bool) : Option VPath :=
  (fs.files.find? (liveMatch root pred)).map (·.1)

/-- All live matches, in traversal order (`findMatchingFiles` in
`EventHandlingService.handleFileUnlink`). -/
def FS.findLiveAll (fs : FS) (root : VPath) (pred : String → Bool) : List VPath :=
  (fs.files.filter (liveMatch root pred)).map (·.1)

/-- The match predicate of the archive search on a path (no `.archive`
exclusion). -/
def treeMatchP (root : VPath) (pred : String → Bool) (p : VPath) : Bool :=
  anywhereUnder root p && (match p.getLast? with
    | some n => pred n
    | none => false)

/-- The archive-search match predicate on a file entry. -/
def treeMatch (root : VPath) (pred : String → Bool) (e : VPath × String) : Bool :=
  treeMatchP root pred e.1

/-- `findFileInArchive`: depth-first search below `root` descending into every
subdirectory, returning the first file whose name satisfies `pred`. -/
def FS.findInTree (fs : FS) (root : VPath) (pred : String → Bool) : Option VPath :=
  (fs.files.find? (treeMatch root pred)).map (·.1)

/-- Number of live files below `root` whose name satisfies `pred`. -/
def FS.countLive (fs : FS) (root : VPath) (pred : String → Bool) : Nat :=
  (fs.files.filter (liveMatch root pred)).length

/-- Render a path the way the TypeScript code renders the result of
`path.join`. -/
def pathString (p : VPath) : String :=
  String.intercalate "/" p

/-! ## SHA-256 (FIPS 180-4): the digest behind `computeFileHash` -/

/-- Truncation to a 32-bit word. -/
def w32 (n : Nat) : Nat := n % 4294967296

/-- Right rotation of a 32-bit word. -/
def rotr (n x : Nat) : Nat := w32 ((x >>> n) ||| (x <<< (32 - n)))

/-- Logical right shift. -/
def shr (n x : Nat) : Nat := x >>> n

/-- Bitwise complement of a 32-bit word. -/
def notW (x : Nat) : Nat := 4294967295 ^^^ x

/-- The SHA-256 `Ch` function. -/
def chW (x y z : Nat) : Nat := (x &&& y) ^^^ (notW x &&& z)

/-- The SHA-256 `Maj` function. -/
def majW (x y z : Nat) : Nat := (x &&& y) ^^^ (x &&& z) ^^^ (y &&& z)

def bsig0 (x : Nat) : Nat := rotr 2 x ^^^ rotr 13 x ^^^ rotr 22 x
def bsig1 (x : Nat) : Nat := rotr 6 x ^^^ rotr 11 x ^^^ rotr 25 x
def ssig0 (x : Nat) : Nat := rotr 7 x ^^^ rotr 18 x ^^^ shr 3 x
def ssig1 (x : Nat) : Nat := rotr 17 x ^^^ rotr 19 x ^^^ shr 10 x

/-- The 64 SHA-256 round constants. -/
def sha256K : List Nat :=
  [1116352408, 1899447441, 3049323471, 3921009573, 961987163, 1508970993,
   2453635748, 2870763221, 3624381080, 310598401, 607225278, 1426881987,
   1925078388, 2162078206, 2614888103, 3248222580, 3835390401, 4022224774,
   264347078, 604807628, 770255983, 1249150122, 1555081692, 1996064986,
   2554220882, 2821834349, 2952996808, 3210313671, 3336571891, 3584528711,
   113926993, 338241895, 666307205, 773529912, 1294757372, 1396182291,
   1695183700, 1986661051, 2177026350, 2456956037, 2730485921, 2820302411,
   3259730800, 3345764771, 3516065817, 3600352804, 4094571909, 275423344,
   430227734, 506948616, 659060556, 883997877, 958139571, 1322822218,
   1537002063, 1747873779, 1955562222, 2024104815, 2227730452, 2361852424,
   2428436474, 2756734187, 3204031479, 3329325298]

/-- The eight 32-bit working registers of SHA-256. -/
structure Hash8 where
  a : Nat
  b : Nat
  c : Nat
  d : Nat
  e : Nat
  f : Nat
  g : Nat
  h : Nat
deriving Repr, DecidableEq

/-- The SHA-256 initial hash value. -/
def initH : Hash8 :=
  ⟨1779033703, 3144134277, 1013904242, 2773480762, 1359893119, 2600822924, 528734635, 1541459225⟩

/-- One step of the message-schedule extension. -/
def scheduleStep (w : List Nat) : List Nat :=
  w ++ [w32 (ssig1 (w.getD (w.length - 2) 0) + w.getD (w.length - 7) 0 +
             ssig0 (w.getD (w.length - 15) 0) + w.getD (w.length - 16) 0)]

/-- Extend 16 message words to the 64-entry schedule. -/
def fullSchedule (w : List Nat) : List Nat :=
  (List.range 48).foldl (fun acc _ => scheduleStep acc) w

/-- One SHA-256 compression round, consuming a (round constant, schedule word)
pair. -/
def sha256Round (s : Hash8) (kw : Nat × Nat) : Hash8 :=
  let t1 := w32 (s.h + bsig1 s.e + chW s.e s.f s.g + kw.1 + kw.2)
  let t2 := w32 (bsig0 s.a + majW s.a s.b s.c)
  ⟨w32 (t1 + t2), s.a, s.b, s.c, w32 (s.d + t1), s.e, s.f, s.g⟩

/-- Compress one 16-word block into the running hash value. -/
def compressBlock (h0 : Hash8) (ws : List Nat) : Hash8 :=
  let s := (sha256K.zip (fullSchedule ws)).foldl sha256Round h0
  ⟨w32 (h0.a + s.a), w32 (h0.b + s.b), w32 (h0.c + s.c), w32 (h0.d + s.d),
   w32 (h0.e + s.e), w32 (h0.f + s.f), w32 (h0.g + s.g), w32 (h0.h + s.h)⟩

/-- Big-endian 32-bit words from a byte list. -/
def toWords : List Nat → List Nat
  | b0 :: b1 :: b2 :: b3 :: rest => (((b0 * 256 + b1) * 256 + b2) * 256 + b3) :: toWords rest
  | _ => []

/-- Split a byte list into 64-byte chunks. -/
def chunks64 (l : List Nat) : List (List Nat) :=
  if h : l = [] then [] else l.take 64 :: chunks64 (l.drop 64)
termination_by l.length
decreasing_by
  simp only [List.length_drop]
  have := List.length_pos.mpr h
  omega

/-- The 8-byte big-endian encoding of the bit length of a message of
`byteCount` bytes. -/
def lenBytes64 (byteCount : Nat) : List Nat :=
  let n := 8 * byteCount
  [n / 2 ^ 56 % 256, n / 2 ^ 48 % 256, n / 2 ^ 40 % 256, n / 2 ^ 32 % 256,
   n / 2 ^ 24 % 256, n / 2 ^ 16 % 256, n / 2 ^ 8 % 256, n % 256]

/-- SHA-256 padding: a `0x80` byte, zeros to 56 mod 64, then the bit length. -/
def padBytes (msg : List Nat) : List Nat :=
  let r := (msg.length + 1) % 64
  let k := if r ≤ 56 then 56 - r else 120 - r
  msg ++ 128 :: List.replicate k 0 ++ lenBytes64 msg.length

/-- The SHA-256 digest of a byte list, as the eight final hash words. -/
def sha256Words (msg : List Nat) : Hash8 :=
  ((chunks64 (padBytes msg)).map toWords).foldl compressBlock initH

/-- One hexadecimal digit (lower case). -/
def hexDigitChar (n : Nat) : Char :=
  if n < 10 then Char.ofNat (48 + n) else Char.ofNat (87 + n)

/-- The 8 hexadecimal characters of a 32-bit word, most significant first. -/
def wordHex (x : Nat) : List Char :=
  [hexDigitChar (x / 16 ^ 7 % 16), hexDigitChar (x / 16 ^ 6 % 16),
   hexDigitChar (x / 16 ^ 5 % 16), hexDigitChar (x / 16 ^ 4 % 16),
   hexDigitChar (x / 16 ^ 3 % 16), hexDigitChar (x / 16 ^ 2 % 16),
   hexDigitChar (x / 16 % 16), hexDigitChar (x % 16)]

/-- The SHA-256 digest as the 64-character lower-case hexadecimal string
produced by `Hash.digest('hex')`. -/
def sha256hex (msg : List Nat) : String :=
  let s := sha256Words msg
  String.mk (wordHex s.a ++ wordHex s.b ++ wordHex s.c ++ wordHex s.d ++
             wordHex s.e ++ wordHex s.f ++ wordHex s.g ++ wordHex s.h)

/-- `computeFileHash` (in `main.ts` and in `FileSystemService`): the file is
read as a stream of byte chunks, each fed to `Hash.update`, and the digest is
the SHA-256 of the accumulated bytes, i.e. of the concatenation of the
chunks. -/
def computeFileHash (chunks : List (List Nat)) : String :=
  sha256hex (chunks.foldl (· ++ ·) [])

/-! ## Settings and events -/

/-- The artifact file name `${baseName}_${hash}.md`. -/
def artifactFileName (baseName hash : String) : String :=
  baseName ++ "_" ++ hash ++ ".md"

/-- The slice of `MarkitdownSettings` consumed by the synchronization engine. -/
structure MarkitdownSettings where
  monitoredFileTypes : List (String × Bool)
  externalSourceOutputFolder : String
  archiveOldConvertedFiles : Bool
deriving Repr, DecidableEq

/-- `settings.monitoredFileTypes[ext]` coerced to a boolean (a missing key is
falsy). -/
def MarkitdownSettings.typeEnabled (s : MarkitdownSettings) (ext : String) : Bool :=
  match s.monitoredFileTypes.lookup ext with
  | some b => b
  | none => false

inductive FileEventType where
  | add
  | change
  | unlink
deriving Repr, DecidableEq

/-- A filesystem event, carrying the path data the handlers derive with Node's
`path` module: `relDir` is `path.relative(monitoredFolderPath,
path.dirname(filePath))` as segments, `fileName` is `path.basename(filePath)`,
`folderBase` is `path.basename(monitoredFolderPath)`, and `content` holds the
bytes of the source file (`none` when it no longer exists on disk). -/
structure FileEvent where
  type : FileEventType
  relDir : VPath
  fileName : String
  folderBase : String
  folderAlias : String
  content : Option (List Nat)
deriving Repr, DecidableEq

def evTypeString : FileEventType → String
  | .add => "add"
  | .change => "change"
  | .unlink => "unlink"

/-- Rendering of the source file path (relative to the monitored root) used in
metadata blocks. -/
def sourcePathString (ev : FileEvent) : String :=
  pathString (ev.relDir ++ [ev.fileName])

/-- `path.basename(path.dirname(sourceFilePath))`. -/
def parentFolderName (ev : FileEvent) : String :=
  match ev.relDir.getLast? with
  | some d => d
  | none => ev.folderBase

/-! ## EventHandlingService -/

inductive ESOutcome where
  | skippedType
  | sourceGone
  | movedExisting (src dst : VPath)
  | alreadyExists
  | converted
  | conversionFailed (msg : String)
  | noMatches
  | unlinkProcessed (found : List VPath)
deriving Repr, DecidableEq

/-- `FileConversionService.ensureDirectoryExists`: create the directory chain
when it does not exist yet. -/
def ensureDirectoryExists (fs : FS) (p : VPath) : FS :=
  if fs.dirExistsAt p then fs else fs.mkdirp p

/-- `FileConversionService.createErrorPlaceholder`: the placeholder written at
the destination when conversion fails (`toISOString` abstracted by the clock
value). -/
def errorPlaceholderContent (filePath msg : String) (now : Nat) : String :=
  "# Conversion Error\n\nFailed to convert file: " ++ filePath ++
  "\n\nError: " ++ msg ++ "\n\nTimestamp: " ++ toString now

/-- The conversion tail of `EventHandlingService.handleFileAddOrChange`:
`FileConversionService.convertFile` (which ensures the output directory and
produces the markdown, here given by the gateway result `convert`), with the
error-placeholder catch of both `convertFile` and the service itself. -/
def esConvertStep (convert : Except String String) (now : Nat) (fs : FS)
    (outputPath : VPath) : FS × ESOutcome :=
  let fs1 := ensureDirectoryExists fs outputPath.dropLast
  match convert with
  | .ok md => (fs1.writeFileAt outputPath md, .converted)
  | .error msg =>
      (fs1.writeFileAt outputPath (errorPlaceholderContent (pathString outputPath) msg now),
       .conversionFailed msg)

/-- `EventHandlingService.handleFileAddOrChange`. The injected
`FileSystemService.computeFileHash` is abstracted as `hashFn` and the
conversion gateway result as `convert`. -/
def handleFileAddOrChange (s : MarkitdownSettings) (hashFn : List Nat → String)
    (convert : Except String String) (now : Nat) (fs : FS) (ev : FileEvent) :
    FS × ESOutcome :=
  match ev.content with
  | none => (fs, .sourceGone)
  | some bytes =>
    let ext := jsToLower (extname ev.fileName)
    if ¬ s.typeEnabled ext then (fs, .skippedType)
    else
      let outputRoot := if ev.folderAlias = "" then ev.folderBase else ev.folderAlias
      let outputDir : VPath := s.externalSourceOutputFolder :: outputRoot :: ev.relDir
      let fs1 := ensureDirectoryExists fs outputDir
      let hash := hashFn bytes
      let baseName := baseNameNoExt ev.fileName
      let outputPath : VPath := outputDir ++ [artifactFileName baseName hash]
      let outputRootDir : VPath := [s.externalSourceOutputFolder]
      let existingFile := fs1.findLive outputRootDir (fun n => jsEndsWith n ("_" ++ hash ++ ".md"))
      match existingFile with
      | some p =>
        if p ≠ outputPath then
          let fs2 := fs1.mkdirp outputPath.dropLast
          (fs2.renameFile p outputPath, .movedExisting p outputPath)
        else if fs1.fileExistsAt outputPath then (fs1, .alreadyExists)
        else esConvertStep convert now fs1 outputPath
      | none =>
        if fs1.fileExistsAt outputPath then (fs1, .alreadyExists)
        else esConvertStep convert now fs1 outputPath

/-- One iteration of the unlink loop of
`EventHandlingService.handleFileUnlink`. `outputPath` is
`path.relative(join(vaultBasePath, outputFolder), fullOutputPath)`; in
hard-delete mode `FileSystemService.deleteFile` resolves that string against
the vault base, so the path it targets drops the output-folder segment. -/
def esUnlinkOne (s : MarkitdownSettings) (now : Nat) (outputRoot : String)
    (relDir : VPath) (fs : FS) (p : VPath) : FS :=
  let outputPath : VPath := p.drop 1
  let newFullOutputPath : VPath :=
    (s.externalSourceOutputFolder :: outputRoot :: relDir) ++ [p.getLastD ""]
  if fs.fileExistsAt newFullOutputPath then fs
  else if s.archiveOldConvertedFiles then
    let fs1 := fs.mkdirp [s.externalSourceOutputFolder, ".archive"]
    let archivePath : VPath := [s.externalSourceOutputFolder, ".archive",
      (outputPath.getLastD "") ++ "_deleted_" ++ toString now ++ ".md"]
    fs1.renameFile p archivePath
  else
    fs.removeFileAt outputPath

/-- `EventHandlingService.handleFileUnlink`: recursive search for artifacts
matching the deleted base name anywhere below the output folder (excluding
`.archive`), then archive (flat, directly under `.archive`) or delete each. -/
def handleFileUnlink (s : MarkitdownSettings) (now : Nat) (fs : FS) (ev : FileEvent) :
    FS × ESOutcome :=
  let ext := jsToLower (extname ev.fileName)
  if ¬ s.typeEnabled ext then (fs, .skippedType)
  else
    let outputRoot := if ev.folderAlias = "" then ev.folderBase else ev.folderAlias
    let baseName := baseNameNoExt ev.fileName
    let outputRootDir : VPath := [s.externalSourceOutputFolder]
    let matchingFiles := fs.findLiveAll outputRootDir
        (fun n => jsStartsWith n (baseName ++ "_") && jsEndsWith n ".md")
    if matchingFiles = [] then (fs, .noMatches)
    else
      (matchingFiles.foldl (esUnlinkOne s now outputRoot ev.relDir) fs,
       .unlinkProcessed matchingFiles)

/-- `EventHandlingService.handleFileEvent`: extension filter, then dispatch on
the event type (errors from the branches are caught and notified at this
level; the outcome records them). -/
def handleFileEvent (s : MarkitdownSettings) (hashFn : List Nat → String)
    (convert : Except String String) (now : Nat) (fs : FS) (ev : FileEvent) :
    FS × ESOutcome :=
  let ext := jsToLower (extname ev.fileName)
  if ¬ s.typeEnabled ext then (fs, .skippedType)
  else match ev.type with
    | .add | .change => handleFileAddOrChange s hashFn convert now fs ev
    | .unlink => handleFileUnlink s now fs ev

/-! ## MarkitdownPlugin.handleExternalFileEvent (src/main.ts) -/

/-- `replace(/[^a-zA-Z0-9-_]/g, '_')`, applied to the monitored-folder base
name in `handleExternalFileEvent`. -/
def sanitizeName (s : String) : String :=
  String.mk (s.data.map (fun c => if c.isAlphanum || c == '-' || c == '_' then c else '_'))

/-- An entry of the `recentlyMoved` cache: destination path and timestamp of
the move. -/
structure MoveRecord where
  dest : VPath
  timestamp : Nat
deriving Repr, DecidableEq

/-- `this.recentlyMoved.set(hash, { dest, timestamp })` on the insertion-order
association list modelling the `Map`. -/
def rmSet (l : List (String × MoveRecord)) (hash : String) (r : MoveRecord) :
    List (String × MoveRecord) :=
  if l.any (fun e => e.1 = hash) then l.map (fun e => if e.1 = hash then (hash, r) else e)
  else l ++ [(hash, r)]

/-- The suppression-cache time-to-live installed in `onload` (15 seconds, in
milliseconds). -/
def recentlyMovedTTL : Nat := 15000

/-- The period of the cleanup interval installed in `onload` (10 seconds, in
milliseconds). -/
def recentlyMovedSweepPeriod : Nat := 10000

/-- The body of the cleanup interval installed in `onload`: delete every entry
with `now - timestamp > 15000`. -/
def sweepRecentlyMoved (now : Nat) (l : List (String × MoveRecord)) :
    List (String × MoveRecord) :=
  l.filter (fun e => ¬ (now - e.2.timestamp > recentlyMovedTTL))

/-- The plugin state touched by `handleExternalFileEvent`: the vault filesystem
and the `recentlyMoved` cache. -/
structure PluginState where
  fs : FS
  recentlyMoved : List (String × MoveRecord)
deriving Repr, DecidableEq

inductive MainOutcome where
  | skippedType
  | noOutputFolder
  | noOutputDir
  | noMatchingFiles
  | suppressedMove
  | archivedDeleted (names : List String)
  | sourceGone
  | movedExisting (src dst : VPath)
  | restoredFromArchive (src dst : VPath)
  | converted
  | conversionFailed (msg : String)
deriving Repr, DecidableEq

/-- Deletion metadata appended before archiving in the unlink branch of
`handleExternalFileEvent` (`new Date().toLocaleString()` abstracted by the
clock value). -/
def deletionMetadata (sourcePath archivePath : String) (now : Nat) : String :=
  "\n\n## Deletion Information\n- Deleted on: " ++ toString now ++
  "\n- Original Source: " ++ sourcePath ++ "\n- Archive Location: " ++ archivePath

/-- Archive metadata appended before archiving superseded artifacts. -/
def archiveMetadata (sourcePath archivePath : String) (now : Nat) : String :=
  "\n\n## Archive Information\n- Archived on: " ++ toString now ++
  "\n- Original Source: " ++ sourcePath ++ "\n- Archive Location: " ++ archivePath

/-- Provenance metadata prepended to a successfully converted artifact. -/
def conversionMetadata (base ext srcPath parent hash : String) (now : Nat)
    (evType content : String) : String :=
  "---\n# Converted: " ++ base ++ "\n\n## File Information\n- Original Name: " ++ base ++
  "\n- File Type: " ++ ext ++ "\n- Source Location: " ++ srcPath ++
  "\n- Parent Folder: " ++ parent ++ "\n- Conversion Hash: " ++ hash ++
  "\n- Conversion Timestamp: " ++ toString now ++ "\n- Event Type: " ++ evType ++
  "\n---\n\n" ++ content

/-- The error placeholder written by `handleExternalFileEvent` when conversion
fails. -/
def mainErrorContent (base ext srcPath parent msg : String) (now : Nat) : String :=
  "# Conversion Error: " ++ base ++ "\n\n## Error Information\n- Original Name: " ++ base ++
  "\n- File Type: " ++ ext ++ "\n- Source Location: " ++ srcPath ++
  "\n- Parent Folder: " ++ parent ++ "\n- Error Time: " ++ toString now ++
  "\n- Error Details: " ++ msg ++
  "\n\nPlease check the console for more information about the conversion error."

/-- One iteration of the unlink archive loop in `handleExternalFileEvent`:
append deletion metadata to the live artifact, then rename it into the archive
directory under `{file}_deleted_{Date.now()}.md`. -/
def mainArchiveDeletedOne (ev : FileEvent) (now : Nat) (dir archiveDir : VPath)
    (fs : FS) (f : String) : FS :=
  let srcP := dir ++ [f]
  let archP := archiveDir ++ [f ++ "_deleted_" ++ toString now ++ ".md"]
  let content := (fs.getFile srcP).getD ""
  let fs1 := fs.writeFileAt srcP
    (content ++ deletionMetadata (sourcePathString ev) (pathString archP) now)
  fs1.renameFile srcP archP

/-- One iteration of the superseded-artifact archive loop in
`handleExternalFileEvent`: append archive metadata, then rename into the
archive directory under `{file}_archived_{Date.now()}.md`. -/
def mainArchiveOldOne (ev : FileEvent) (now : Nat) (dir archiveDir : VPath)
    (fs : FS) (f : String) : FS :=
  let srcP := dir ++ [f]
  let archP := archiveDir ++ [f ++ "_archived_" ++ toString now ++ ".md"]
  let content := (fs.getFile srcP).getD ""
  let fs1 := fs.writeFileAt srcP
    (content ++ archiveMetadata (sourcePathString ev) (pathString archP) now)
  fs1.renameFile srcP archP

/-- The tail of the add/change branch of `handleExternalFileEvent` after the
live search found nothing to move: check the archive for a restorable entry,
otherwise archive superseded same-base-name artifacts and convert. -/
def mainRestoreOrConvert (s : MarkitdownSettings) (convert : Except String String)
    (now : Nat) (st : PluginState) (ev : FileEvent) (hash : String) :
    PluginState × MainOutcome :=
  let out := s.externalSourceOutputFolder
  let base := baseNameNoExt ev.fileName
  let ext := jsToLower (extname ev.fileName)
  let outputRoot := if ev.folderAlias = "" then sanitizeName ev.folderBase else ev.folderAlias
  let dir : VPath := out :: outputRoot :: ev.relDir
  let archiveDir : VPath := out :: ".archive" :: outputRoot :: ev.relDir
  let mdName := artifactFileName base hash
  let canonical : VPath := dir ++ [mdName]
  let foundInArchive := st.fs.findInTree [out, ".archive"]
      (fun n => jsStartsWith n (base ++ "_") && jsEndsWith n (hash ++ ".md"))
  match foundInArchive with
  | some p =>
    let fs1 := st.fs.mkdirp dir
    ({ st with fs := fs1.renameFile p canonical }, .restoredFromArchive p canonical)
  | none =>
    let fsA :=
      if st.fs.dirExistsAt dir then
        let oldFiles := (st.fs.filesIn dir).filter
          (fun f => jsStartsWith f (base ++ "_") && jsEndsWith f ".md" && !(f == mdName))
        if !oldFiles.isEmpty && s.archiveOldConvertedFiles then
          let fs1 := st.fs.mkdirp archiveDir
          oldFiles.foldl (mainArchiveOldOne ev now dir archiveDir) fs1
        else st.fs
      else st.fs
    let fsB := fsA.mkdirp dir
    match convert with
    | .ok md =>
      let fsC := fsB.writeFileAt canonical md
      let content := (fsC.getFile canonical).getD ""
      let fsD := fsC.writeFileAt canonical
        (conversionMetadata base ext (sourcePathString ev) (parentFolderName ev) hash now
          (evTypeString ev.type) content)
      ({ st with fs := fsD }, .converted)
    | .error msg =>
      let fsC := fsB.writeFileAt canonical
        (mainErrorContent base ext (sourcePathString ev) (parentFolderName ev) msg now)
      ({ st with fs := fsC }, .conversionFailed msg)

/-- `MarkitdownPlugin.handleExternalFileEvent` (src/main.ts): the hash-based
deduplication handler. `hashFn` abstracts `this.computeFileHash`, `convert`
the result of `this.convertFile`, and `now` the clock. -/
def handleExternalFileEvent (s : MarkitdownSettings) (hashFn : List Nat → String)
    (convert : Except String String) (now : Nat) (st : PluginState) (ev : FileEvent) :
    PluginState × MainOutcome :=
  let ext := jsToLower (extname ev.fileName)
  if ¬ s.typeEnabled ext then (st, .skippedType)
  else if s.externalSourceOutputFolder = "" then (st, .noOutputFolder)
  else
    let out := s.externalSourceOutputFolder
    let base := baseNameNoExt ev.fileName
    let outputRoot := if ev.folderAlias = "" then sanitizeName ev.folderBase else ev.folderAlias
    let dir : VPath := out :: outputRoot :: ev.relDir
    let archiveDir : VPath := out :: ".archive" :: outputRoot :: ev.relDir
    match ev.type with
    | .unlink =>
      if ¬ st.fs.dirExistsAt dir then (st, .noOutputDir)
      else
        let matchingFiles := (st.fs.filesIn dir).filter
          (fun f => jsStartsWith f (base ++ "_") && jsEndsWith f ".md")
        if matchingFiles = [] then (st, .noMatchingFiles)
        else
          let wasRecentlyMoved := st.recentlyMoved.any
            (fun e => matchingFiles.any (fun f => dir ++ [f] = e.2.dest))
          if wasRecentlyMoved then (st, .suppressedMove)
          else
            let fs1 := st.fs.mkdirp archiveDir
            let fs2 := matchingFiles.foldl (mainArchiveDeletedOne ev now dir archiveDir) fs1
            ({ st with fs := fs2 }, .archivedDeleted matchingFiles)
    | _ =>
      match ev.content with
      | none => (st, .sourceGone)
      | some bytes =>
        let hash := hashFn bytes
        let mdName := artifactFileName base hash
        let canonical : VPath := dir ++ [mdName]
        let foundPath := st.fs.findLive [out] (fun n => n == mdName)
        match foundPath with
        | some p =>
          if p ≠ canonical then
            let fs1 := st.fs.mkdirp dir
            let fs2 := fs1.renameFile p canonical
            ({ fs := fs2, recentlyMoved := rmSet st.recentlyMoved hash ⟨canonical, now⟩ },
             .movedExisting p canonical)
          else mainRestoreOrConvert s convert now st ev hash
        | none => mainRestoreOrConvert s convert now st ev hash

/-! ## Helper lemmas: strings -/

theorem jsEndsWith_append (s t : String) : jsEndsWith (s ++ t) t = true := by
  simp [jsEndsWith, List.isSuffixOf_iff_suffix, String.data_append]

theorem jsEndsWith_append3 (s t u : String) : jsEndsWith (s ++ (t ++ u)) u = true := by
  simp only [jsEndsWith, List.isSuffixOf_iff_suffix, String.data_append]
  exact (List.suffix_append _ _).trans (List.suffix_append _ _)

theorem jsStartsWith_append (s t : String) : jsStartsWith (s ++ t) s = true := by
  simp [jsStartsWith, List.isPrefixOf_iff_prefix, String.data_append]

theorem artifactFileName_endsWith (b h : String) :
    jsEndsWith (artifactFileName b h) ("_" ++ h ++ ".md") = true := by
  have : artifactFileName b h = b ++ ("_" ++ (h ++ ".md")) := by
    simp [artifactFileName, String.append_assoc]
  rw [this]
  simpa [String.append_assoc] using jsEndsWith_append b ("_" ++ (h ++ ".md"))

theorem artifactFileName_length (b h : String) :
    (artifactFileName b h).length = b.length + h.length + 4 := by
  have h1 : ("_" : String).length = 1 := rfl
  have h2 : (".md" : String).length = 3 := rfl
  simp only [artifactFileName, String.length_append, h1, h2]
  omega

/-! ## Helper lemmas: association lists -/

theorem lookupAssoc_update_self (l : List (VPath × String)) (p : VPath) (c : String) :
    lookupAssoc (updateAssoc l p c) p = some c := by
  induction l with
  | nil => simp [updateAssoc, lookupAssoc]
  | cons e rest ih =>
    by_cases h : e.1 = p
    · simp [updateAssoc, lookupAssoc, h]
    · simp [updateAssoc, lookupAssoc, h, ih]

theorem lookupAssoc_update_ne (l : List (VPath × String)) (p q : VPath) (c : String)
    (h : q ≠ p) : lookupAssoc (updateAssoc l p c) q = lookupAssoc l q := by
  induction l with
  | nil => simp [updateAssoc, lookupAssoc, Ne.symm h]
  | cons e rest ih =>
    by_cases he : e.1 = p
    · subst he
      simp only [updateAssoc, if_pos rfl]
      simp [lookupAssoc, Ne.symm h]
    · simp only [updateAssoc, if_neg he]
      by_cases hq : e.1 = q
      · simp [lookupAssoc, hq]
      · simp [lookupAssoc, hq, ih]

theorem lookupAssoc_remove_self (l : List (VPath × String)) (p : VPath) :
    lookupAssoc (removeAssoc l p) p = none := by
  induction l with
  | nil => simp [removeAssoc, lookupAssoc]
  | cons e rest ih =>
    by_cases h : e.1 = p
    · simpa [removeAssoc, List.filter, h] using ih
    · simpa [removeAssoc, List.filter, h, lookupAssoc] using ih

theorem lookupAssoc_remove_ne (l : List (VPath × String)) (p q : VPath)
    (h : q ≠ p) : lookupAssoc (removeAssoc l p) q = lookupAssoc l q := by
  induction l with
  | nil => simp [removeAssoc, lookupAssoc]
  | cons e rest ih =>
    simp only [removeAssoc, List.filter_cons, decide_not] at ih ⊢
    by_cases he : e.1 = p
    · by_cases hq : e.1 = q
      · exact absurd (hq ▸ he) h
      · simp [he, lookupAssoc, hq, ih, h.symm]
    · by_cases hq : e.1 = q
      · simp [he, lookupAssoc, hq, h]
      · simp [he, lookupAssoc, hq, ih]

theorem lookupAssoc_eq_none_iff (l : List (VPath × String)) (p : VPath) :
    lookupAssoc l p = none ↔ ∀ e ∈ l, e.1 ≠ p := by
  induction l with
  | nil => simp [lookupAssoc]
  | cons e rest ih =>
    by_cases h : e.1 = p
    · simp [lookupAssoc, h]
    · simp [lookupAssoc, h, ih]

theorem updateAssoc_of_lookup_none (l : List (VPath × String)) (p : VPath) (c : String)
    (h : lookupAssoc l p = none) : updateAssoc l p c = l ++ [(p, c)] := by
  induction l with
  | nil => simp [updateAssoc]
  | cons e rest ih =>
    by_cases he : e.1 = p
    · simp [lookupAssoc, he] at h
    · simp [lookupAssoc, he] at h
      simp [updateAssoc, he, ih h]

/-! ## Helper lemmas: filesystem operations -/

theorem FS.files_mkdirp (fs : FS) (p : VPath) : (fs.mkdirp p).files = fs.files := rfl

theorem FS.dirs_writeFileAt (fs : FS) (p : VPath) (c : String) :
    (fs.writeFileAt p c).dirs = fs.dirs := rfl

theorem FS.dirs_removeFileAt (fs : FS) (p : VPath) :
    (fs.removeFileAt p).dirs = fs.dirs := rfl

theorem FS.dirs_renameFile (fs : FS) (a b : VPath) :
    (fs.renameFile a b).dirs = fs.dirs := by
  unfold FS.renameFile
  cases fs.getFile a <;> rfl

theorem FS.files_ensureDir (fs : FS) (p : VPath) :
    (ensureDirectoryExists fs p).files = fs.files := by
  unfold ensureDirectoryExists
  split <;> rfl

theorem FS.getFile_writeFileAt_self (fs : FS) (p : VPath) (c : String) :
    (fs.writeFileAt p c).getFile p = some c :=
  lookupAssoc_update_self fs.files p c

theorem FS.getFile_writeFileAt_ne (fs : FS) (p q : VPath) (c : String) (h : q ≠ p) :
    (fs.writeFileAt p c).getFile q = fs.getFile q :=
  lookupAssoc_update_ne fs.files p q c h

theorem FS.getFile_removeFileAt_self (fs : FS) (p : VPath) :
    (fs.removeFileAt p).getFile p = none :=
  lookupAssoc_remove_self fs.files p

theorem FS.getFile_removeFileAt_ne (fs : FS) (p q : VPath) (h : q ≠ p) :
    (fs.removeFileAt p).getFile q = fs.getFile q :=
  lookupAssoc_remove_ne fs.files p q h

/-- After a successful rename the destination holds the moved content. -/
theorem FS.getFile_renameFile_dst (fs : FS) (a b : VPath) (c : String)
    (h : fs.getFile a = some c) : (fs.renameFile a b).getFile b = some c := by
  unfold FS.renameFile
  rw [h]
  exact FS.getFile_writeFileAt_self _ b c

/-- After a rename to a different path the source no longer exists. -/
theorem FS.getFile_renameFile_src (fs : FS) (a b : VPath) (hab : a ≠ b) :
    (fs.renameFile a b).getFile a = none := by
  unfold FS.renameFile
  cases hg : fs.getFile a with
  | none => exact hg
  | some c =>
    rw [FS.getFile_writeFileAt_ne _ _ _ _ hab]
    exact FS.getFile_removeFileAt_self fs a

/-- A rename touches no path other than its source and destination. -/
theorem FS.getFile_renameFile_other (fs : FS) (a b q : VPath)
    (hqa : q ≠ a) (hqb : q ≠ b) : (fs.renameFile a b).getFile q = fs.getFile q := by
  unfold FS.renameFile
  cases hg : fs.getFile a with
  | none => rfl
  | some c =>
    rw [FS.getFile_writeFileAt_ne _ _ _ _ hqb]
    exact FS.getFile_removeFileAt_ne fs a q hqa

theorem pathPrefixes_self_mem (p : VPath) (hp : p ≠ []) : p ∈ pathPrefixes p := by
  have hl : 0 < p.length := List.length_pos.mpr hp
  unfold pathPrefixes
  refine List.mem_map.mpr ⟨p.length - 1, ?_, ?_⟩
  · exact List.mem_range.mpr (by omega)
  · have : p.length - 1 + 1 = p.length := by omega
    rw [this, List.take_length]

theorem FS.dirExistsAt_mkdirp_self (fs : FS) (p : VPath) (hp : p ≠ []) :
    (fs.mkdirp p).dirExistsAt p = true := by
  unfold FS.mkdirp FS.dirExistsAt
  by_cases h : p ∈ fs.dirs
  · simp [h]
  · have hm := pathPrefixes_self_mem p hp
    simp [h, hm]

theorem FS.dirExistsAt_mkdirp_mono (fs : FS) (p q : VPath)
    (h : fs.dirExistsAt q = true) : (fs.mkdirp p).dirExistsAt q = true := by
  unfold FS.mkdirp FS.dirExistsAt at *
  simp at h ⊢
  simp [h]

theorem ensureDir_of_dirExists (fs : FS) (p : VPath) (h : fs.dirExistsAt p = true) :
    ensureDirectoryExists fs p = fs := by
  unfold ensureDirectoryExists
  simp [h]

theorem FS.dirExistsAt_ensureDir_self (fs : FS) (p : VPath) (hp : p ≠ []) :
    (ensureDirectoryExists fs p).dirExistsAt p = true := by
  unfold ensureDirectoryExists
  by_cases h : fs.dirExistsAt p
  · simp [h]
  · simpa [h] using FS.dirExistsAt_mkdirp_self fs p hp

theorem FS.dirExistsAt_writeFileAt (fs : FS) (p q : VPath) (c : String) :
    (fs.writeFileAt p c).dirExistsAt q = fs.dirExistsAt q := rfl

theorem FS.dirExistsAt_renameFile (fs : FS) (a b q : VPath) :
    (fs.renameFile a b).dirExistsAt q = fs.dirExistsAt q := by
  unfold FS.dirExistsAt
  rw [FS.dirs_renameFile]

/-! ## Helper lemmas: paths -/

theorem path_eq_of_dropLast_getLast {p : VPath} {d : VPath} {f : String}
    (h1 : p.dropLast = d) (h2 : p.getLast? = some f) : p = d ++ [f] := by
  have hne : p ≠ [] := by
    intro h
    rw [h] at h2
    simp at h2
  have := List.dropLast_append_getLast hne
  rw [List.getLast?_eq_getLast p hne] at h2
  rw [← this, h1]
  simp at h2
  rw [h2]

theorem append_singleton_ne_of_dir_ne {d1 d2 : VPath} {f1 f2 : String} (h : d1 ≠ d2) :
    d1 ++ [f1] ≠ d2 ++ [f2] := by
  intro he
  apply h
  have := congrArg List.dropLast he
  simpa [List.dropLast_concat] using this

theorem append_singleton_ne_of_name_ne {d1 d2 : VPath} {f1 f2 : String} (h : f1 ≠ f2) :
    d1 ++ [f1] ≠ d2 ++ [f2] := by
  intro he
  apply h
  have := congrArg List.getLast? he
  simpa [List.getLast?_concat] using this

theorem string_append_right_ne {f1 f2 s : String} (h : f1 ≠ f2) : f1 ++ s ≠ f2 ++ s := by
  intro he
  apply h
  have hd : f1.data ++ s.data = f2.data ++ s.data := by
    have := congrArg String.data he
    simpa [String.data_append] using this
  have := List.append_inj_left' hd rfl
  exact String.ext this

/-! ## Helper lemmas: searches and counts -/

theorem FS.findLive_ensureDir (fs : FS) (d root : VPath) (pred : String → Bool) :
    (ensureDirectoryExists fs d).findLive root pred = fs.findLive root pred := by
  unfold FS.findLive
  rw [FS.files_ensureDir]

theorem FS.fileExistsAt_ensureDir (fs : FS) (d p : VPath) :
    (ensureDirectoryExists fs d).fileExistsAt p = fs.fileExistsAt p := by
  unfold FS.fileExistsAt
  rw [FS.files_ensureDir]

theorem FS.getFile_ensureDir (fs : FS) (d p : VPath) :
    (ensureDirectoryExists fs d).getFile p = fs.getFile p := by
  unfold FS.getFile
  rw [FS.files_ensureDir]

theorem FS.findLive_eq_none_iff (fs : FS) (root : VPath) (pred : String → Bool) :
    fs.findLive root pred = none ↔ ∀ e ∈ fs.files, liveMatch root pred e = false := by
  unfold FS.findLive
  rw [Option.map_eq_none', List.find?_eq_none]
  simp

theorem FS.findLive_some_match (fs : FS) (root : VPath) (pred : String → Bool)
    (p : VPath) (h : fs.findLive root pred = some p) :
    liveMatchP root pred p = true ∧ ∃ c, (p, c) ∈ fs.files := by
  unfold FS.findLive at h
  cases hf : fs.files.find? (liveMatch root pred) with
  | none => rw [hf] at h; simp at h
  | some e =>
    rw [hf] at h
    simp only [Option.map_some', Option.some.injEq] at h
    have h1 := List.find?_some hf
    have h2 := List.mem_of_find?_eq_some hf
    subst h
    exact ⟨h1, e.2, h2⟩

theorem FS.findInTree_some_match (fs : FS) (root : VPath) (pred : String → Bool)
    (p : VPath) (h : fs.findInTree root pred = some p) :
    treeMatchP root pred p = true ∧ ∃ c, (p, c) ∈ fs.files := by
  unfold FS.findInTree at h
  cases hf : fs.files.find? (treeMatch root pred) with
  | none => rw [hf] at h; simp at h
  | some e =>
    rw [hf] at h
    simp only [Option.map_some', Option.some.injEq] at h
    have h1 := List.find?_some hf
    have h2 := List.mem_of_find?_eq_some hf
    subst h
    exact ⟨h1, e.2, h2⟩

/-- The live search never reports a path inside a `.archive` subtree: the
directory of a result extends `root` and has no `.archive` segment below
`root`. -/
theorem FS.findLive_not_in_archive (fs : FS) (root : VPath) (pred : String → Bool)
    (p : VPath) (h : fs.findLive root pred = some p) :
    root.isPrefixOf p.dropLast = true ∧
      (p.dropLast.drop root.length).contains ".archive" = false := by
  obtain ⟨hm, -⟩ := fs.findLive_some_match root pred p h
  unfold liveMatchP liveUnder at hm
  simp only [Bool.and_eq_true, decide_eq_true_eq] at hm
  refine ⟨hm.1.1, ?_⟩
  exact Bool.eq_false_iff.mpr hm.1.2

theorem lookupAssoc_isSome_of_mem {l : List (VPath × String)} {p : VPath} {c : String}
    (h : (p, c) ∈ l) : (lookupAssoc l p).isSome = true := by
  induction l with
  | nil => simp at h
  | cons e rest ih =>
    rcases List.mem_cons.mp h with he | hr
    · rw [← he]
      simp [lookupAssoc]
    · by_cases hk : e.1 = p
      · simp [lookupAssoc, hk]
      · simpa [lookupAssoc, hk] using ih hr

/-- Number of entries with a given key. -/
def keyCount (l : List (VPath × String)) (p : VPath) : Nat :=
  (l.filter (fun e => decide (e.1 = p))).length

theorem keyCount_pos_of_mem {l : List (VPath × String)} {p : VPath} {c : String}
    (h : (p, c) ∈ l) : 1 ≤ keyCount l p := by
  induction l with
  | nil => simp at h
  | cons e rest ih =>
    rcases List.mem_cons.mp h with he | hr
    · rw [← he]
      simp [keyCount, List.filter_cons]
    · by_cases hk : e.1 = p
      · simp [keyCount, List.filter_cons, hk]
      · simpa [keyCount, List.filter_cons, hk] using ih hr

theorem filter_key_remove (l : List (VPath × String)) (p : VPath) (Q : VPath → Bool) :
    ((removeAssoc l p).filter (fun e => Q e.1)).length
      + (if Q p then keyCount l p else 0)
      = (l.filter (fun e => Q e.1)).length := by
  induction l with
  | nil => simp [removeAssoc, keyCount]
  | cons e rest ih =>
    obtain ⟨k, v⟩ := e
    simp only [removeAssoc, keyCount, List.filter_cons] at ih ⊢
    by_cases he : k = p
    · subst he
      by_cases hq : Q k <;> simp [hq] at ih ⊢ <;> omega
    · by_cases hq : Q k <;> by_cases hqp : Q p <;>
        simp [he, hq, hqp] at ih ⊢ <;> omega

theorem filter_key_update (l : List (VPath × String)) (p : VPath) (c : String)
    (Q : VPath → Bool) :
    ((updateAssoc l p c).filter (fun e => Q e.1)).length
      = (l.filter (fun e => Q e.1)).length
        + (if lookupAssoc l p = none ∧ Q p = true then 1 else 0) := by
  induction l with
  | nil =>
    simp only [updateAssoc, lookupAssoc, List.filter_cons, List.filter_nil]
    by_cases hqp : Q p <;> simp [hqp]
  | cons e rest ih =>
    obtain ⟨k, v⟩ := e
    by_cases he : k = p
    · subst he
      simp only [updateAssoc, lookupAssoc, if_pos rfl, List.filter_cons]
      by_cases hq : Q k <;> simp [hq]
    · simp only [updateAssoc, lookupAssoc, if_neg he, List.filter_cons]
      by_cases hq : Q k <;> by_cases hqp : Q p <;>
        simp [he, hq, hqp] at ih ⊢ <;> omega

theorem liveMatch_eq_lambda (root : VPath) (pred : String → Bool) :
    liveMatch root pred = (fun e : VPath × String => liveMatchP root pred e.1) := rfl

theorem FS.countLive_eq_zero_of_findLive_none (fs : FS) (root : VPath)
    (pred : String → Bool) (h : fs.findLive root pred = none) :
    fs.countLive root pred = 0 := by
  unfold FS.countLive
  rw [List.length_eq_zero, List.filter_eq_nil_iff]
  intro e he
  have := (fs.findLive_eq_none_iff root pred).mp h e he
  simp [this]

theorem FS.countLive_writeFileAt (fs : FS) (p : VPath) (c : String) (root : VPath)
    (pred : String → Bool) :
    (fs.writeFileAt p c).countLive root pred
      = fs.countLive root pred
        + (if fs.getFile p = none ∧ liveMatchP root pred p = true then 1 else 0) := by
  unfold FS.countLive FS.writeFileAt FS.getFile
  rw [liveMatch_eq_lambda]
  exact filter_key_update fs.files p c (liveMatchP root pred)

theorem FS.countLive_renameFile_le_one (fs : FS) (a b : VPath) (root : VPath)
    (pred : String → Bool) (hmem : ∃ c, (a, c) ∈ fs.files)
    (ha : liveMatchP root pred a = true) (hle : fs.countLive root pred ≤ 1) :
    (fs.renameFile a b).countLive root pred ≤ 1 := by
  obtain ⟨c, hc⟩ := hmem
  have hlook : (lookupAssoc fs.files a).isSome = true := lookupAssoc_isSome_of_mem hc
  cases hg : fs.getFile a with
  | none =>
    unfold FS.getFile at hg
    rw [hg] at hlook
    simp at hlook
  | some c0 =>
    have hrw : fs.renameFile a b = (fs.removeFileAt a).writeFileAt b c0 := by
      unfold FS.renameFile
      rw [hg]
    rw [hrw]
    unfold FS.countLive FS.writeFileAt FS.removeFileAt at *
    rw [liveMatch_eq_lambda] at *
    dsimp only at *
    have hrem := filter_key_remove fs.files a (liveMatchP root pred)
    have hupd := filter_key_update (removeAssoc fs.files a) b c0 (liveMatchP root pred)
    have hkc : 1 ≤ keyCount fs.files a := keyCount_pos_of_mem hc
    rw [if_pos ha] at hrem
    have hif : (if lookupAssoc (removeAssoc fs.files a) b = none ∧
        liveMatchP root pred b = true then 1 else 0) ≤ 1 := by
      split <;> omega
    omega

theorem FS.fileExistsAt_writeFileAt_self (fs : FS) (p : VPath) (c : String) :
    (fs.writeFileAt p c).fileExistsAt p = true := by
  unfold FS.fileExistsAt FS.writeFileAt
  rw [lookupAssoc_update_self]
  rfl

theorem FS.findLive_writeFileAt_absent (fs : FS) (p : VPath) (c : String)
    (root : VPath) (pred : String → Bool)
    (hnone : fs.findLive root pred = none) (habs : fs.getFile p = none)
    (hq : liveMatchP root pred p = true) :
    (fs.writeFileAt p c).findLive root pred = some p := by
  unfold FS.findLive FS.writeFileAt at *
  unfold FS.getFile at habs
  rw [updateAssoc_of_lookup_none fs.files p c habs, List.find?_append]
  have h0 : fs.files.find? (liveMatch root pred) = none := Option.map_eq_none'.mp hnone
  rw [h0]
  have : liveMatch root pred (p, c) = true := hq
  simp [List.find?_cons, this]

/-! ## Helper lemmas: the archive fold of `handleExternalFileEvent` -/

theorem mainArchiveDeletedOne_frame (ev : FileEvent) (now : Nat) (dir archiveDir : VPath)
    (fs : FS) (f : String) (q : VPath)
    (hq1 : q ≠ dir ++ [f])
    (hq2 : q ≠ archiveDir ++ [f ++ "_deleted_" ++ toString now ++ ".md"]) :
    (mainArchiveDeletedOne ev now dir archiveDir fs f).getFile q = fs.getFile q := by
  unfold mainArchiveDeletedOne
  rw [FS.getFile_renameFile_other _ _ _ _ hq1 hq2, FS.getFile_writeFileAt_ne _ _ _ _ hq1]

theorem mainArchiveDeletedOne_src (ev : FileEvent) (now : Nat) (dir archiveDir : VPath)
    (fs : FS) (f : String) (hdir : dir ≠ archiveDir) :
    (mainArchiveDeletedOne ev now dir archiveDir fs f).getFile (dir ++ [f]) = none := by
  unfold mainArchiveDeletedOne
  exact FS.getFile_renameFile_src _ _ _ (append_singleton_ne_of_dir_ne hdir)

theorem mainArchiveDeletedOne_arch (ev : FileEvent) (now : Nat) (dir archiveDir : VPath)
    (fs : FS) (f : String) (c : String) (hc : fs.getFile (dir ++ [f]) = some c)
    (hdir : dir ≠ archiveDir) :
    (mainArchiveDeletedOne ev now dir archiveDir fs f).getFile
        (archiveDir ++ [f ++ "_deleted_" ++ toString now ++ ".md"])
      = some (c ++ deletionMetadata (sourcePathString ev)
          (pathString (archiveDir ++ [f ++ "_deleted_" ++ toString now ++ ".md"])) now) := by
  unfold mainArchiveDeletedOne
  simp only [hc, Option.getD_some]
  apply FS.getFile_renameFile_dst
  exact FS.getFile_writeFileAt_self _ _ _

theorem archiveFold_frame (ev : FileEvent) (now : Nat) (dir archiveDir : VPath)
    (M : List String) (fs : FS) (q : VPath)
    (hq1 : ∀ f ∈ M, q ≠ dir ++ [f])
    (hq2 : ∀ f ∈ M, q ≠ archiveDir ++ [f ++ "_deleted_" ++ toString now ++ ".md"]) :
    (M.foldl (mainArchiveDeletedOne ev now dir archiveDir) fs).getFile q = fs.getFile q := by
  induction M generalizing fs with
  | nil => rfl
  | cons f rest ih =>
    rw [List.foldl_cons]
    rw [ih _ (fun g hg => hq1 g (List.mem_cons_of_mem f hg))
          (fun g hg => hq2 g (List.mem_cons_of_mem f hg))]
    exact mainArchiveDeletedOne_frame ev now dir archiveDir fs f q
      (hq1 f (List.mem_cons_self f rest)) (hq2 f (List.mem_cons_self f rest))

/-- After the unlink archive fold, every processed artifact has left its live
location and sits (with deletion metadata appended) at its archive path. -/
theorem archiveFold_spec (ev : FileEvent) (now : Nat) (dir archiveDir : VPath)
    (hdir : dir ≠ archiveDir) (M : List String) (hnd : M.Nodup) (fs : FS)
    (hM : ∀ f ∈ M, (fs.getFile (dir ++ [f])).isSome = true) :
    ∀ f ∈ M,
      (M.foldl (mainArchiveDeletedOne ev now dir archiveDir) fs).getFile (dir ++ [f]) = none ∧
      ((M.foldl (mainArchiveDeletedOne ev now dir archiveDir) fs).getFile
          (archiveDir ++ [f ++ "_deleted_" ++ toString now ++ ".md"])).isSome = true := by
  induction M generalizing fs with
  | nil => intro f hf; simp at hf
  | cons g rest ih =>
    intro f hf
    rw [List.foldl_cons]
    have hgr : g ∉ rest := (List.nodup_cons.mp hnd).1
    rcases List.mem_cons.mp hf with h | h
    · subst h
      have hfr1 : ∀ f' ∈ rest, (dir ++ [f] : VPath) ≠ dir ++ [f'] := fun f' hf' =>
        append_singleton_ne_of_name_ne (fun he => hgr (he ▸ hf'))
      have hfr2 : ∀ f' ∈ rest, (dir ++ [f] : VPath)
          ≠ archiveDir ++ [f' ++ "_deleted_" ++ toString now ++ ".md"] := fun f' _ =>
        append_singleton_ne_of_dir_ne hdir
      have har1 : ∀ f' ∈ rest,
          (archiveDir ++ [f ++ "_deleted_" ++ toString now ++ ".md"] : VPath)
            ≠ dir ++ [f'] := fun f' _ =>
        append_singleton_ne_of_dir_ne (Ne.symm hdir)
      have har2 : ∀ f' ∈ rest,
          (archiveDir ++ [f ++ "_deleted_" ++ toString now ++ ".md"] : VPath)
            ≠ archiveDir ++ [f' ++ "_deleted_" ++ toString now ++ ".md"] := by
        intro f' hf'
        have hne : f ≠ f' := fun he => hgr (he ▸ hf')
        exact append_singleton_ne_of_name_ne
          (string_append_right_ne (string_append_right_ne (string_append_right_ne hne)))
      constructor
      · rw [archiveFold_frame ev now dir archiveDir rest _ _ hfr1 hfr2]
        exact mainArchiveDeletedOne_src ev now dir archiveDir fs f hdir
      · rw [archiveFold_frame ev now dir archiveDir rest _ _ har1 har2]
        obtain ⟨c, hc⟩ := Option.isSome_iff_exists.mp (hM f (List.mem_cons_self f rest))
        rw [mainArchiveDeletedOne_arch ev now dir archiveDir fs f c hc hdir]
        rfl
    · have hfg : f ≠ g := fun he => hgr (he ▸ h)
      have hM' : ∀ f' ∈ rest,
          ((mainArchiveDeletedOne ev now dir archiveDir fs g).getFile
            (dir ++ [f'])).isSome = true := by
        intro f' hf'
        have hne1 : (dir ++ [f'] : VPath) ≠ dir ++ [g] :=
          append_singleton_ne_of_name_ne (fun he => hgr (he ▸ hf'))
        have hne2 : (dir ++ [f'] : VPath)
            ≠ archiveDir ++ [g ++ "_deleted_" ++ toString now ++ ".md"] :=
          append_singleton_ne_of_dir_ne hdir
        rw [mainArchiveDeletedOne_frame ev now dir archiveDir fs g _ hne1 hne2]
        exact hM f' (List.mem_cons_of_mem g hf')
      exact ih (List.nodup_cons.mp hnd).2 _ hM' f h

/-! ## Bridging lemmas -/

theorem FS.getFile_mkdirp (fs : FS) (d p : VPath) :
    (fs.mkdirp d).getFile p = fs.getFile p := rfl

theorem FS.countLive_ensureDir (fs : FS) (d root : VPath) (pred : String → Bool) :
    (ensureDirectoryExists fs d).countLive root pred = fs.countLive root pred := by
  unfold FS.countLive
  rw [FS.files_ensureDir]

theorem FS.countLive_mkdirp (fs : FS) (d root : VPath) (pred : String → Bool) :
    (fs.mkdirp d).countLive root pred = fs.countLive root pred := rfl

/-- A rename whose source is a present, matching live file never increases the
number of matching live files. -/
theorem FS.countLive_renameFile_le (fs : FS) (a b : VPath) (root : VPath)
    (pred : String → Bool) (hmem : ∃ c, (a, c) ∈ fs.files)
    (ha : liveMatchP root pred a = true) :
    (fs.renameFile a b).countLive root pred ≤ fs.countLive root pred := by
  obtain ⟨c, hc⟩ := hmem
  have hlook : (lookupAssoc fs.files a).isSome = true := lookupAssoc_isSome_of_mem hc
  cases hg : fs.getFile a with
  | none =>
    unfold FS.getFile at hg
    rw [hg] at hlook
    simp at hlook
  | some c0 =>
    have hrw : fs.renameFile a b = (fs.removeFileAt a).writeFileAt b c0 := by
      unfold FS.renameFile
      rw [hg]
    rw [hrw]
    unfold FS.countLive FS.writeFileAt FS.removeFileAt
    rw [liveMatch_eq_lambda]
    dsimp only
    have hrem := filter_key_remove fs.files a (liveMatchP root pred)
    have hupd := filter_key_update (removeAssoc fs.files a) b c0 (liveMatchP root pred)
    have hkc : 1 ≤ keyCount fs.files a := keyCount_pos_of_mem hc
    rw [if_pos ha] at hrem
    have hif : (if lookupAssoc (removeAssoc fs.files a) b = none ∧
        liveMatchP root pred b = true then 1 else 0) ≤ 1 := by
      split <;> omega
    omega

theorem FS.getFile_eq_none_of_not_exists (fs : FS) (p : VPath)
    (h : fs.fileExistsAt p = false) : fs.getFile p = none := by
  unfold FS.fileExistsAt at h
  unfold FS.getFile
  cases hl : lookupAssoc fs.files p with
  | none => rfl
  | some c => rw [hl] at h; simp at h

theorem mem_filesIn_iff (fs : FS) (d : VPath) (f : String) :
    f ∈ fs.filesIn d ↔ ∃ c, (d ++ [f], c) ∈ fs.files := by
  unfold FS.filesIn
  rw [List.mem_filterMap]
  constructor
  · rintro ⟨e, he, hfe⟩
    cases hl : e.1.getLast? with
    | none => rw [hl] at hfe; simp at hfe
    | some n =>
      rw [hl] at hfe
      dsimp only at hfe
      by_cases hd : e.1.dropLast = d
      · rw [if_pos hd] at hfe
        simp only [Option.some.injEq] at hfe
        have hpath : e.1 = d ++ [f] := path_eq_of_dropLast_getLast hd (by rw [hl, hfe])
        refine ⟨e.2, ?_⟩
        have : e = (d ++ [f], e.2) := by
          rw [← hpath]
        rw [← this]
        exact he
      · rw [if_neg hd] at hfe
        simp at hfe
  · rintro ⟨c, hc⟩
    refine ⟨(d ++ [f], c), hc, ?_⟩
    simp [List.getLast?_concat, List.dropLast_concat]

/-- The canonical artifact path of the specification:
`{destRoot}/{alias, falling back to the monitored-root base name}/{relativeDir}/
{baseName}_{fingerprint}.md`. -/
def specCanonicalPath (destRoot aliasName folderBase : String) (relDir : VPath)
    (baseName fingerprint : String) : VPath :=
  destRoot :: (if aliasName = "" then folderBase else aliasName) :: relDir
    ++ [artifactFileName baseName fingerprint]

/-- The canonical path is always a live (non-archive) match for its own
fingerprint suffix, provided neither the alias segment nor the relative
directory is named `.archive`. -/
theorem liveMatchP_specCanonical (destRoot aliasName folderBase : String) (relDir : VPath)
    (baseName fingerprint : String)
    (h1 : (if aliasName = "" then folderBase else aliasName) ≠ ".archive")
    (h2 : ".archive" ∉ relDir) :
    liveMatchP [destRoot] (fun n => jsEndsWith n ("_" ++ fingerprint ++ ".md"))
      (specCanonicalPath destRoot aliasName folderBase relDir baseName fingerprint) = true := by
  unfold liveMatchP liveUnder specCanonicalPath
  have hdrop : ((destRoot :: (if aliasName = "" then folderBase else aliasName) :: relDir
      ++ [artifactFileName baseName fingerprint]) : VPath).dropLast
      = destRoot :: (if aliasName = "" then folderBase else aliasName) :: relDir := by
    rw [show (destRoot :: (if aliasName = "" then folderBase else aliasName) :: relDir
      ++ [artifactFileName baseName fingerprint] : VPath)
      = (destRoot :: (if aliasName = "" then folderBase else aliasName) :: relDir)
        ++ [artifactFileName baseName fingerprint] by simp]
    exact List.dropLast_concat
  have hlast : ((destRoot :: (if aliasName = "" then folderBase else aliasName) :: relDir
      ++ [artifactFileName baseName fingerprint]) : VPath).getLast?
      = some (artifactFileName baseName fingerprint) := by
    rw [show (destRoot :: (if aliasName = "" then folderBase else aliasName) :: relDir
      ++ [artifactFileName baseName fingerprint] : VPath)
      = (destRoot :: (if aliasName = "" then folderBase else aliasName) :: relDir)
        ++ [artifactFileName baseName fingerprint] by simp]
    exact List.getLast?_concat _
  rw [hdrop, hlast]
  simp only [List.isPrefixOf_iff_prefix]
  have hpre : ([destRoot] : VPath) <+: destRoot :: (if aliasName = "" then folderBase else aliasName) :: relDir :=
    ⟨(if aliasName = "" then folderBase else aliasName) :: relDir, rfl⟩
  simp [hpre, artifactFileName_endsWith, h1, h2, Ne.symm h1]

/-! ## Digest shape lemmas -/

/-- Lower-case hexadecimal digits. -/
def isHexDigitChar (c : Char) : Bool := c.isDigit || ('a' ≤ c && c ≤ 'f')

theorem wordHex_length (x : Nat) : (wordHex x).length = 8 := rfl

theorem sha256hex_length (msg : List Nat) : (sha256hex msg).length = 64 := by
  unfold sha256hex
  show (wordHex _ ++ wordHex _ ++ wordHex _ ++ wordHex _ ++
        wordHex _ ++ wordHex _ ++ wordHex _ ++ wordHex _).length = 64
  simp [List.length_append, wordHex_length]

theorem hexDigitChar_isHex (n : Nat) (h : n < 16) :
    isHexDigitChar (hexDigitChar n) = true := by
  interval_cases n <;> decide

theorem mem_wordHex_isHex (x : Nat) (c : Char) (h : c ∈ wordHex x) :
    isHexDigitChar c = true := by
  unfold wordHex at h
  simp only [List.mem_cons, List.not_mem_nil, or_false] at h
  rcases h with h|h|h|h|h|h|h|h <;> subst h <;>
    exact hexDigitChar_isHex _ (Nat.mod_lt _ (by norm_num))

theorem sha256hex_chars_hex (msg : List Nat) :
    ∀ c ∈ (sha256hex msg).data, isHexDigitChar c = true := by
  intro c hc
  unfold sha256hex at hc
  dsimp only at hc
  simp only [List.mem_append] at hc
  rcases hc with ((((((h|h)|h)|h)|h)|h)|h)|h <;> exact mem_wordHex_isHex _ _ h

theorem foldl_append_acc (chunks : List (List Nat)) (acc : List Nat) :
    chunks.foldl (· ++ ·) acc = acc ++ chunks.foldl (· ++ ·) [] := by
  induction chunks generalizing acc with
  | nil => simp
  | cons x rest ih =>
    rw [List.foldl_cons, List.foldl_cons, ih (acc ++ x), ih ([] ++ x)]
    simp

/-- The streamed digest is the digest of the concatenated chunks. -/
theorem computeFileHash_eq_join (chunks : List (List Nat)) :
    computeFileHash chunks = sha256hex chunks.flatten := by
  unfold computeFileHash
  congr 1
  induction chunks with
  | nil => rfl
  | cons x rest ih =>
    rw [List.foldl_cons, foldl_append_acc, List.flatten_cons, ih]
    simp

/-! ## Claims -/

/-- **C9.** For every event (of any kind) whose file extension is not enabled
in the configured monitored-file-type set, both event handlers
(`EventHandlingService.handleFileEvent` and
`MarkitdownPlugin.handleExternalFileEvent`) return without performing any
filesystem mutation: the state is returned unchanged with the skipped
outcome. -/
theorem extension_filter_noop (s : MarkitdownSettings) (hashFn : List Nat → String)
    (convert : Except String String) (now : Nat) (fs : FS) (st : PluginState)
    (ev : FileEvent)
    (hext : s.typeEnabled (jsToLower (extname ev.fileName)) = false) :
    handleFileEvent s hashFn convert now fs ev = (fs, ESOutcome.skippedType)
    ∧ handleExternalFileEvent s hashFn convert now st ev
        = (st, MainOutcome.skippedType) := by
  constructor
  · unfold handleFileEvent
    simp [hext]
  · unfold handleExternalFileEvent
    simp [hext]

/-- **C9** witness: a `.txt` event against a configuration that only monitors
`.pdf` is a no-op for both handlers. -/
theorem extension_filter_noop_witness :
    (MarkitdownSettings.mk [(".pdf", true)] "Ext" true).typeEnabled
        (jsToLower (extname "notes.txt")) = false
    ∧ (handleFileEvent (MarkitdownSettings.mk [(".pdf", true)] "Ext" true)
          (fun _ => "h") (Except.ok "MD") 0 (FS.mk [] [])
          (FileEvent.mk FileEventType.unlink [] "notes.txt" "docs" "" none)
        = (FS.mk [] [], ESOutcome.skippedType)
      ∧ handleExternalFileEvent (MarkitdownSettings.mk [(".pdf", true)] "Ext" true)
          (fun _ => "h") (Except.ok "MD") 0 (PluginState.mk (FS.mk [] []) [])
          (FileEvent.mk FileEventType.unlink [] "notes.txt" "docs" "" none)
        = (PluginState.mk (FS.mk [] []) [], MainOutcome.skippedType)) :=
  ⟨by decide, extension_filter_noop _ _ _ _ _ _ _ (by decide)⟩

/-- **C10** counterexample: two sources with identical byte content but
different base names are mapped to different artifact file names
(`{baseName}_{fingerprint}.md` embeds the base name), refuting the claim that
equal-content files always receive equal artifact file names. -/
theorem c10_equal_content_distinct_names :
    artifactFileName (baseNameNoExt "a.pdf") (computeFileHash [[1, 2, 3]])
      ≠ artifactFileName (baseNameNoExt "bb.pdf") (computeFileHash [[1, 2, 3]]) := by
  intro he
  have hlen := congrArg String.length he
  rw [artifactFileName_length, artifactFileName_length] at hlen
  have h1 : (baseNameNoExt "a.pdf").length = 1 := by decide
  have h2 : (baseNameNoExt "bb.pdf").length = 2 := by decide
  omega

/-- **C10** (amended): the content-fingerprint computation is deterministic in
file content: `computeFileHash` depends only on the concatenation of the byte
chunks streamed from the file (not on the file's path or name), and produces a
64-character lower-case hexadecimal SHA-256 string; equal-content sources
therefore share the `_{fingerprint}.md` suffix of their artifact names, though
the full artifact file name also embeds the source base name. -/
theorem computeFileHash_content_deterministic (chunks1 chunks2 : List (List Nat))
    (b : String) (h : chunks1.flatten = chunks2.flatten) :
    computeFileHash chunks1 = computeFileHash chunks2
    ∧ (computeFileHash chunks1).length = 64
    ∧ (∀ c ∈ (computeFileHash chunks1).data, isHexDigitChar c = true)
    ∧ jsEndsWith (artifactFileName b (computeFileHash chunks1))
        ("_" ++ computeFileHash chunks2 ++ ".md") = true := by
  have heq : computeFileHash chunks1 = computeFileHash chunks2 := by
    rw [computeFileHash_eq_join, computeFileHash_eq_join, h]
  refine ⟨heq, ?_, ?_, ?_⟩
  · rw [computeFileHash_eq_join]
    exact sha256hex_length _
  · rw [computeFileHash_eq_join]
    exact sha256hex_chars_hex _
  · rw [← heq]
    exact artifactFileName_endsWith _ _

/-- **C10** witness: the same bytes streamed in one chunk or two chunks give
the same digest, 64 hexadecimal characters long. -/
theorem computeFileHash_content_deterministic_witness :
    ([[1, 2], [3]] : List (List Nat)).flatten = ([[1, 2, 3]] : List (List Nat)).flatten
    ∧ (computeFileHash [[1, 2], [3]] = computeFileHash [[1, 2, 3]]
      ∧ (computeFileHash [[1, 2], [3]]).length = 64
      ∧ (∀ c ∈ (computeFileHash [[1, 2], [3]]).data, isHexDigitChar c = true)
      ∧ jsEndsWith (artifactFileName "report" (computeFileHash [[1, 2], [3]]))
          ("_" ++ computeFileHash [[1, 2, 3]] ++ ".md") = true) :=
  ⟨by decide, computeFileHash_content_deterministic [[1, 2], [3]] [[1, 2, 3]] "report"
    (by decide)⟩

/-- **C6.** Every live artifact created by
`EventHandlingService.handleFileAddOrChange` is placed exactly at the
deterministic canonical path
`{destRoot}/{alias}/{relativeDirFromMonitoredRoot}/{baseName}_{fingerprint}.md`
(`specCanonicalPath`, a pure function of those inputs), where the alias falls
back to the base name of the monitored root path when no alias is configured;
no other destination path is touched by the conversion. -/
theorem es_canonical_path_layout (s : MarkitdownSettings) (hashFn : List Nat → String)
    (md : String) (now : Nat) (fs : FS) (ev : FileEvent) (bytes : List Nat)
    (hc : ev.content = some bytes)
    (hext : s.typeEnabled (jsToLower (extname ev.fileName)) = true)
    (hfind : fs.findLive [s.externalSourceOutputFolder]
        (fun n => jsEndsWith n ("_" ++ hashFn bytes ++ ".md")) = none)
    (hnex : fs.fileExistsAt (specCanonicalPath s.externalSourceOutputFolder
        ev.folderAlias ev.folderBase ev.relDir (baseNameNoExt ev.fileName)
        (hashFn bytes)) = false) :
    (handleFileAddOrChange s hashFn (Except.ok md) now fs ev).2 = ESOutcome.converted
    ∧ (handleFileAddOrChange s hashFn (Except.ok md) now fs ev).1.getFile
        (specCanonicalPath s.externalSourceOutputFolder ev.folderAlias ev.folderBase
          ev.relDir (baseNameNoExt ev.fileName) (hashFn bytes)) = some md
    ∧ ∀ q, q ≠ specCanonicalPath s.externalSourceOutputFolder ev.folderAlias
          ev.folderBase ev.relDir (baseNameNoExt ev.fileName) (hashFn bytes) →
        (handleFileAddOrChange s hashFn (Except.ok md) now fs ev).1.getFile q
          = fs.getFile q := by
  simp only [specCanonicalPath, List.cons_append] at hnex ⊢
  unfold handleFileAddOrChange
  rw [hc]
  simp only [hext, not_true, if_false, Bool.not_eq_true, ite_false, ite_true,
    FS.findLive_ensureDir, hfind, FS.fileExistsAt_ensureDir, List.cons_append, hnex]
  simp only [Bool.false_eq_true, if_false]
  unfold esConvertStep
  simp only [FS.getFile_ensureDir, List.cons_append]
  refine ⟨trivial, ?_, ?_⟩
  · exact FS.getFile_writeFileAt_self _ _ _
  · intro q hq
    rw [FS.getFile_writeFileAt_ne _ _ _ _ hq, FS.getFile_ensureDir, FS.getFile_ensureDir]

/-- **C6** witness: converting `report.pdf` from monitored root `docs` (no
alias) lands the artifact at `Ext/docs/sub/report_h.md`. -/
theorem es_canonical_path_layout_witness :
    (FileEvent.mk FileEventType.add ["sub"] "report.pdf" "docs" ""
        (some [1, 2, 3])).content = some [1, 2, 3]
    ∧ (MarkitdownSettings.mk [(".pdf", true)] "Ext" true).typeEnabled
        (jsToLower (extname "report.pdf")) = true
    ∧ ((handleFileAddOrChange (MarkitdownSettings.mk [(".pdf", true)] "Ext" true)
          (fun _ => "h") (Except.ok "MD") 0 (FS.mk [] [])
          (FileEvent.mk FileEventType.add ["sub"] "report.pdf" "docs" ""
            (some [1, 2, 3]))).2 = ESOutcome.converted
      ∧ (handleFileAddOrChange (MarkitdownSettings.mk [(".pdf", true)] "Ext" true)
          (fun _ => "h") (Except.ok "MD") 0 (FS.mk [] [])
          (FileEvent.mk FileEventType.add ["sub"] "report.pdf" "docs" ""
            (some [1, 2, 3]))).1.getFile
          (specCanonicalPath "Ext" "" "docs" ["sub"] (baseNameNoExt "report.pdf") "h")
        = some "MD") := by
  refine ⟨rfl, by decide, ?_⟩
  have h := es_canonical_path_layout (MarkitdownSettings.mk [(".pdf", true)] "Ext" true)
    (fun _ => "h") "MD" 0 (FS.mk [] [])
    (FileEvent.mk FileEventType.add ["sub"] "report.pdf" "docs" "" (some [1, 2, 3]))
    [1, 2, 3] rfl (by decide) (by decide) (by decide)
  exact ⟨h.1, h.2.1⟩

/-- **C8.** When conversion fails in
`EventHandlingService.handleFileAddOrChange`, a placeholder artifact produced
by `FileConversionService.createErrorPlaceholder` — containing the error
message and a timestamp — is written at the canonical destination path and the
error is re-raised (the `conversionFailed` outcome); for any conversion result
the destination path is never left without a file after an attempted
conversion. -/
theorem es_conversion_failure_placeholder (s : MarkitdownSettings)
    (hashFn : List Nat → String) (convert : Except String String) (now : Nat)
    (fs : FS) (ev : FileEvent) (bytes : List Nat)
    (hc : ev.content = some bytes)
    (hext : s.typeEnabled (jsToLower (extname ev.fileName)) = true)
    (hfind : fs.findLive [s.externalSourceOutputFolder]
        (fun n => jsEndsWith n ("_" ++ hashFn bytes ++ ".md")) = none)
    (hnex : fs.fileExistsAt (specCanonicalPath s.externalSourceOutputFolder
        ev.folderAlias ev.folderBase ev.relDir (baseNameNoExt ev.fileName)
        (hashFn bytes)) = false) :
    ((handleFileAddOrChange s hashFn convert now fs ev).1.getFile
        (specCanonicalPath s.externalSourceOutputFolder ev.folderAlias ev.folderBase
          ev.relDir (baseNameNoExt ev.fileName) (hashFn bytes))).isSome = true
    ∧ ∀ msg, convert = Except.error msg →
        (handleFileAddOrChange s hashFn convert now fs ev).2
          = ESOutcome.conversionFailed msg
        ∧ (handleFileAddOrChange s hashFn convert now fs ev).1.getFile
            (specCanonicalPath s.externalSourceOutputFolder ev.folderAlias
              ev.folderBase ev.relDir (baseNameNoExt ev.fileName) (hashFn bytes))
          = some (errorPlaceholderContent
              (pathString (specCanonicalPath s.externalSourceOutputFolder
                ev.folderAlias ev.folderBase ev.relDir (baseNameNoExt ev.fileName)
                (hashFn bytes))) msg now) := by
  simp only [specCanonicalPath, List.cons_append] at hnex ⊢
  unfold handleFileAddOrChange
  rw [hc]
  simp only [hext, not_true, Bool.not_eq_true, FS.findLive_ensureDir, hfind,
    FS.fileExistsAt_ensureDir, List.cons_append, hnex, Bool.false_eq_true, if_false]
  unfold esConvertStep
  cases convert with
  | ok md =>
    constructor
    · simp only [FS.getFile_writeFileAt_self, Option.isSome_some]
    · intro msg hmsg
      exact absurd hmsg (by simp)
  | error msg0 =>
    constructor
    · simp only [FS.getFile_writeFileAt_self, Option.isSome_some]
    · intro msg hmsg
      have : msg0 = msg := by
        cases hmsg
        rfl
      subst this
      exact ⟨rfl, FS.getFile_writeFileAt_self _ _ _⟩

/-- **C8** witness: a failing conversion of `broken.pdf` leaves the placeholder
(with message and timestamp) at the canonical path and re-raises. -/
theorem es_conversion_failure_placeholder_witness :
    (FileEvent.mk FileEventType.add [] "broken.pdf" "docs" ""
        (some [7])).content = some [7]
    ∧ (((handleFileAddOrChange (MarkitdownSettings.mk [(".pdf", true)] "Ext" true)
          (fun _ => "h") (Except.error "boom") 5 (FS.mk [] [])
          (FileEvent.mk FileEventType.add [] "broken.pdf" "docs" ""
            (some [7]))).1.getFile
          (specCanonicalPath "Ext" "" "docs" [] (baseNameNoExt "broken.pdf") "h")).isSome
        = true
      ∧ (handleFileAddOrChange (MarkitdownSettings.mk [(".pdf", true)] "Ext" true)
          (fun _ => "h") (Except.error "boom") 5 (FS.mk [] [])
          (FileEvent.mk FileEventType.add [] "broken.pdf" "docs" ""
            (some [7]))).2 = ESOutcome.conversionFailed "boom") := by
  refine ⟨rfl, ?_⟩
  have h := es_conversion_failure_placeholder
    (MarkitdownSettings.mk [(".pdf", true)] "Ext" true) (fun _ => "h")
    (Except.error "boom") 5 (FS.mk [] [])
    (FileEvent.mk FileEventType.add [] "broken.pdf" "docs" "" (some [7]))
    [7] rfl (by decide) (by decide) (by decide)
  exact ⟨h.1, (h.2 "boom" rfl).1⟩

theorem dropLast_cons2_concat (a b : String) (l : VPath) (x : String) :
    (a :: b :: (l ++ [x]) : VPath).dropLast = a :: b :: l := by
  rw [show (a :: b :: (l ++ [x]) : VPath) = (a :: b :: l) ++ [x] by simp]
  exact List.dropLast_concat

/-- **C1.** For every Added/Modified event on a source file whose content
fingerprint already has a live (non-archived) artifact at some path `p` other
than the canonical destination path, `EventHandlingService.handleFileAddOrChange`
relocates that artifact to the canonical path (creating parent directories as
needed) and returns without invoking conversion: the outcome is the move, the
canonical path now holds the artifact's content, the old path no longer holds a
live artifact, and the number of live artifacts for the fingerprint has not
grown (no duplicate is created). -/
theorem es_move_detection_relocates (s : MarkitdownSettings)
    (hashFn : List Nat → String) (convert : Except String String) (now : Nat)
    (fs : FS) (ev : FileEvent) (bytes : List Nat) (p : VPath)
    (hc : ev.content = some bytes)
    (hext : s.typeEnabled (jsToLower (extname ev.fileName)) = true)
    (hfind : fs.findLive [s.externalSourceOutputFolder]
        (fun n => jsEndsWith n ("_" ++ hashFn bytes ++ ".md")) = some p)
    (hne : p ≠ specCanonicalPath s.externalSourceOutputFolder ev.folderAlias
        ev.folderBase ev.relDir (baseNameNoExt ev.fileName) (hashFn bytes)) :
    (handleFileAddOrChange s hashFn convert now fs ev).2
      = ESOutcome.movedExisting p (specCanonicalPath s.externalSourceOutputFolder
          ev.folderAlias ev.folderBase ev.relDir (baseNameNoExt ev.fileName)
          (hashFn bytes))
    ∧ (handleFileAddOrChange s hashFn convert now fs ev).1.getFile
        (specCanonicalPath s.externalSourceOutputFolder ev.folderAlias ev.folderBase
          ev.relDir (baseNameNoExt ev.fileName) (hashFn bytes)) = fs.getFile p
    ∧ (handleFileAddOrChange s hashFn convert now fs ev).1.getFile p = none
    ∧ (handleFileAddOrChange s hashFn convert now fs ev).1.countLive
        [s.externalSourceOutputFolder] (fun n => jsEndsWith n ("_" ++ hashFn bytes ++ ".md"))
      ≤ fs.countLive [s.externalSourceOutputFolder]
          (fun n => jsEndsWith n ("_" ++ hashFn bytes ++ ".md"))
    ∧ (handleFileAddOrChange s hashFn convert now fs ev).1.dirExistsAt
        ((specCanonicalPath s.externalSourceOutputFolder ev.folderAlias ev.folderBase
          ev.relDir (baseNameNoExt ev.fileName) (hashFn bytes)).dropLast) = true := by
  obtain ⟨hm, c, hmem⟩ := fs.findLive_some_match _ _ _ hfind
  have hgp : (fs.getFile p).isSome = true := lookupAssoc_isSome_of_mem hmem
  obtain ⟨c0, hc0⟩ := Option.isSome_iff_exists.mp hgp
  simp only [specCanonicalPath, List.cons_append] at hne ⊢
  unfold handleFileAddOrChange
  rw [hc]
  simp only [hext, not_true, Bool.not_eq_true, if_false, FS.findLive_ensureDir, hfind,
    List.cons_append]
  rw [if_pos hne]
  refine ⟨rfl, ?_, ?_, ?_, ?_⟩
  · have hsrc : ((ensureDirectoryExists fs (s.externalSourceOutputFolder ::
        (if ev.folderAlias = "" then ev.folderBase else ev.folderAlias) ::
        ev.relDir)).mkdirp ((s.externalSourceOutputFolder ::
        (if ev.folderAlias = "" then ev.folderBase else ev.folderAlias) ::
        (ev.relDir ++ [artifactFileName (baseNameNoExt ev.fileName) (hashFn bytes)]) :
        VPath).dropLast)).getFile p = some c0 := by
      rw [FS.getFile_mkdirp, FS.getFile_ensureDir]
      exact hc0
    rw [FS.getFile_renameFile_dst _ _ _ _ hsrc, hc0]
  · exact FS.getFile_renameFile_src _ _ _ hne
  · have hmem2 : ∃ c1, (p, c1) ∈ ((ensureDirectoryExists fs
        (s.externalSourceOutputFolder ::
          (if ev.folderAlias = "" then ev.folderBase else ev.folderAlias) ::
          ev.relDir)).mkdirp ((s.externalSourceOutputFolder ::
        (if ev.folderAlias = "" then ev.folderBase else ev.folderAlias) ::
        (ev.relDir ++ [artifactFileName (baseNameNoExt ev.fileName) (hashFn bytes)]) :
        VPath).dropLast)).files := by
      refine ⟨c, ?_⟩
      rw [FS.files_mkdirp, FS.files_ensureDir]
      exact hmem
    refine le_trans (FS.countLive_renameFile_le _ p _ _ _ hmem2 hm) (le_of_eq ?_)
    rw [FS.countLive_mkdirp, FS.countLive_ensureDir]
  · rw [FS.dirExistsAt_renameFile]
    rw [dropLast_cons2_concat]
    have := FS.dirExistsAt_mkdirp_self (ensureDirectoryExists fs
      (s.externalSourceOutputFolder ::
        (if ev.folderAlias = "" then ev.folderBase else ev.folderAlias) :: ev.relDir))
      ((s.externalSourceOutputFolder ::
        (if ev.folderAlias = "" then ev.folderBase else ev.folderAlias) ::
        (ev.relDir ++ [artifactFileName (baseNameNoExt ev.fileName) (hashFn bytes)]) :
        VPath).dropLast) (by rw [dropLast_cons2_concat]; simp)
    rw [dropLast_cons2_concat] at this
    exact this

/-- **C1** witness: `report.pdf` moved from `docs/old` to `docs/sub` (same
bytes) relocates the existing artifact instead of reconverting. -/
theorem es_move_detection_relocates_witness :
    (FS.mk [(["Ext", "docs", "old", "report_h.md"], "OLD")]
        [["Ext"], ["Ext", "docs"], ["Ext", "docs", "old"]]).findLive ["Ext"]
        (fun n => jsEndsWith n ("_" ++ "h" ++ ".md"))
      = some ["Ext", "docs", "old", "report_h.md"]
    ∧ ((handleFileAddOrChange (MarkitdownSettings.mk [(".pdf", true)] "Ext" true)
          (fun _ => "h") (Except.ok "MD") 0
          (FS.mk [(["Ext", "docs", "old", "report_h.md"], "OLD")]
            [["Ext"], ["Ext", "docs"], ["Ext", "docs", "old"]])
          (FileEvent.mk FileEventType.add ["sub"] "report.pdf" "docs" ""
            (some [1, 2, 3]))).2
        = ESOutcome.movedExisting ["Ext", "docs", "old", "report_h.md"]
            (specCanonicalPath "Ext" "" "docs" ["sub"] (baseNameNoExt "report.pdf") "h")
      ∧ (handleFileAddOrChange (MarkitdownSettings.mk [(".pdf", true)] "Ext" true)
          (fun _ => "h") (Except.ok "MD") 0
          (FS.mk [(["Ext", "docs", "old", "report_h.md"], "OLD")]
            [["Ext"], ["Ext", "docs"], ["Ext", "docs", "old"]])
          (FileEvent.mk FileEventType.add ["sub"] "report.pdf" "docs" ""
            (some [1, 2, 3]))).1.getFile
          (specCanonicalPath "Ext" "" "docs" ["sub"] (baseNameNoExt "report.pdf") "h")
        = (FS.mk [(["Ext", "docs", "old", "report_h.md"], "OLD")]
            [["Ext"], ["Ext", "docs"], ["Ext", "docs", "old"]]).getFile
            ["Ext", "docs", "old", "report_h.md"]
      ∧ (handleFileAddOrChange (MarkitdownSettings.mk [(".pdf", true)] "Ext" true)
          (fun _ => "h") (Except.ok "MD") 0
          (FS.mk [(["Ext", "docs", "old", "report_h.md"], "OLD")]
            [["Ext"], ["Ext", "docs"], ["Ext", "docs", "old"]])
          (FileEvent.mk FileEventType.add ["sub"] "report.pdf" "docs" ""
            (some [1, 2, 3]))).1.getFile ["Ext", "docs", "old", "report_h.md"]
        = none) := by
  refine ⟨by decide, ?_⟩
  have h := es_move_detection_relocates (MarkitdownSettings.mk [(".pdf", true)] "Ext" true)
    (fun _ => "h") (Except.ok "MD") 0
    (FS.mk [(["Ext", "docs", "old", "report_h.md"], "OLD")]
      [["Ext"], ["Ext", "docs"], ["Ext", "docs", "old"]])
    (FileEvent.mk FileEventType.add ["sub"] "report.pdf" "docs" "" (some [1, 2, 3]))
    [1, 2, 3] ["Ext", "docs", "old", "report_h.md"] rfl (by decide) (by decide)
    (by decide)
  exact ⟨h.1, h.2.1, h.2.2.1⟩

theorem FS.dirExistsAt_ensureDir_mono (fs : FS) (p q : VPath)
    (h : fs.dirExistsAt q = true) : (ensureDirectoryExists fs p).dirExistsAt q = true := by
  unfold ensureDirectoryExists
  split
  · exact h
  · exact FS.dirExistsAt_mkdirp_mono fs p q h

/-- A second Added event for a state that already has the artifact at the
canonical path (found there by the live search) is a strict no-op: the
filesystem is returned unchanged with the `alreadyExists` outcome. -/
theorem es_second_add_noop (s : MarkitdownSettings) (hashFn : List Nat → String)
    (md : String) (now : Nat) (fs1 : FS) (ev : FileEvent) (bytes : List Nat)
    (htype : ev.type = FileEventType.add)
    (hc : ev.content = some bytes)
    (hext : s.typeEnabled (jsToLower (extname ev.fileName)) = true)
    (hdir : fs1.dirExistsAt (s.externalSourceOutputFolder ::
        (if ev.folderAlias = "" then ev.folderBase else ev.folderAlias) :: ev.relDir) = true)
    (hfind1 : fs1.findLive [s.externalSourceOutputFolder]
        (fun n => jsEndsWith n ("_" ++ hashFn bytes ++ ".md"))
      = some (s.externalSourceOutputFolder ::
          (if ev.folderAlias = "" then ev.folderBase else ev.folderAlias) ::
          (ev.relDir ++ [artifactFileName (baseNameNoExt ev.fileName) (hashFn bytes)])))
    (hex1 : fs1.fileExistsAt (s.externalSourceOutputFolder ::
        (if ev.folderAlias = "" then ev.folderBase else ev.folderAlias) ::
        (ev.relDir ++ [artifactFileName (baseNameNoExt ev.fileName) (hashFn bytes)])) = true) :
    handleFileEvent s hashFn (Except.ok md) now fs1 ev = (fs1, ESOutcome.alreadyExists) := by
  unfold handleFileEvent handleFileAddOrChange
  rw [hc]
  simp only [htype, hext, not_true, Bool.not_eq_true, if_false, List.cons_append]
  rw [ensureDir_of_dirExists _ _ hdir]
  rw [hfind1]
  simp only [ne_eq, eq_self_iff_true, not_true, if_false, hex1, if_true, ite_true,
    ite_false]

/-- **C2.** Handling the same Added event twice in succession with unchanged
content is idempotent in `EventHandlingService.handleFileEvent`: after the
first call exactly one live artifact for the fingerprint exists, at the
canonical path, and the second call performs no filesystem mutation — it
detects the artifact at the canonical path and returns the state unchanged
with the `alreadyExists` outcome. -/
theorem es_add_idempotent (s : MarkitdownSettings) (hashFn : List Nat → String)
    (md : String) (now1 now2 : Nat) (fs : FS) (ev : FileEvent) (bytes : List Nat)
    (htype : ev.type = FileEventType.add)
    (hc : ev.content = some bytes)
    (hext : s.typeEnabled (jsToLower (extname ev.fileName)) = true)
    (hfind : fs.findLive [s.externalSourceOutputFolder]
        (fun n => jsEndsWith n ("_" ++ hashFn bytes ++ ".md")) = none)
    (hnex : fs.fileExistsAt (specCanonicalPath s.externalSourceOutputFolder
        ev.folderAlias ev.folderBase ev.relDir (baseNameNoExt ev.fileName)
        (hashFn bytes)) = false)
    (harch1 : (if ev.folderAlias = "" then ev.folderBase else ev.folderAlias) ≠ ".archive")
    (harch2 : ".archive" ∉ ev.relDir) :
    (handleFileEvent s hashFn (Except.ok md) now1 fs ev).1.getFile
        (specCanonicalPath s.externalSourceOutputFolder ev.folderAlias ev.folderBase
          ev.relDir (baseNameNoExt ev.fileName) (hashFn bytes)) = some md
    ∧ (handleFileEvent s hashFn (Except.ok md) now1 fs ev).1.countLive
        [s.externalSourceOutputFolder]
        (fun n => jsEndsWith n ("_" ++ hashFn bytes ++ ".md")) = 1
    ∧ handleFileEvent s hashFn (Except.ok md) now2
        (handleFileEvent s hashFn (Except.ok md) now1 fs ev).1 ev
      = ((handleFileEvent s hashFn (Except.ok md) now1 fs ev).1,
         ESOutcome.alreadyExists) := by
  have hliveQ := liveMatchP_specCanonical s.externalSourceOutputFolder ev.folderAlias
    ev.folderBase ev.relDir (baseNameNoExt ev.fileName) (hashFn bytes) harch1 harch2
  simp only [specCanonicalPath, List.cons_append] at hliveQ hnex ⊢
  have hnone := FS.getFile_eq_none_of_not_exists fs _ hnex
  have hcount0 := FS.countLive_eq_zero_of_findLive_none fs _ _ hfind
  obtain ⟨fs1, o1, hr1⟩ : ∃ fs1 o1,
      handleFileEvent s hashFn (Except.ok md) now1 fs ev = (fs1, o1) := ⟨_, _, rfl⟩
  have hr1' := hr1
  unfold handleFileEvent handleFileAddOrChange esConvertStep at hr1'
  rw [hc] at hr1'
  simp only [htype, hext, not_true, Bool.not_eq_true, if_false, FS.findLive_ensureDir,
    hfind, FS.fileExistsAt_ensureDir, hnex, Bool.false_eq_true, List.cons_append,
    Prod.mk.injEq] at hr1'
  obtain ⟨hfs1eq, -⟩ := hr1'
  rw [hr1]
  have hget : fs1.getFile (s.externalSourceOutputFolder ::
      (if ev.folderAlias = "" then ev.folderBase else ev.folderAlias) ::
      (ev.relDir ++ [artifactFileName (baseNameNoExt ev.fileName) (hashFn bytes)]))
      = some md := by
    rw [← hfs1eq]
    exact FS.getFile_writeFileAt_self _ _ _
  have hfind1 : fs1.findLive [s.externalSourceOutputFolder]
      (fun n => jsEndsWith n ("_" ++ hashFn bytes ++ ".md"))
      = some (s.externalSourceOutputFolder ::
          (if ev.folderAlias = "" then ev.folderBase else ev.folderAlias) ::
          (ev.relDir ++ [artifactFileName (baseNameNoExt ev.fileName) (hashFn bytes)])) := by
    rw [← hfs1eq]
    exact FS.findLive_writeFileAt_absent _ _ _ _ _
      (by rw [FS.findLive_ensureDir, FS.findLive_ensureDir]; exact hfind)
      (by rw [FS.getFile_ensureDir, FS.getFile_ensureDir]; exact hnone)
      hliveQ
  have hex1 : fs1.fileExistsAt (s.externalSourceOutputFolder ::
      (if ev.folderAlias = "" then ev.folderBase else ev.folderAlias) ::
      (ev.relDir ++ [artifactFileName (baseNameNoExt ev.fileName) (hashFn bytes)]))
      = true := by
    rw [← hfs1eq]
    exact FS.fileExistsAt_writeFileAt_self _ _ _
  have hdir1 : fs1.dirExistsAt (s.externalSourceOutputFolder ::
      (if ev.folderAlias = "" then ev.folderBase else ev.folderAlias) :: ev.relDir)
      = true := by
    rw [← hfs1eq]
    rw [show ∀ fsx : FS, ∀ pq cq, ((fsx.writeFileAt pq cq).dirExistsAt) =
      fsx.dirExistsAt from fun _ _ _ => rfl]
    apply FS.dirExistsAt_ensureDir_mono
    exact FS.dirExistsAt_ensureDir_self fs _ (by simp)
  have hcount1 : fs1.countLive [s.externalSourceOutputFolder]
      (fun n => jsEndsWith n ("_" ++ hashFn bytes ++ ".md")) = 1 := by
    rw [← hfs1eq, FS.countLive_writeFileAt]
    rw [FS.countLive_ensureDir, FS.countLive_ensureDir, hcount0]
    rw [if_pos ⟨by rw [FS.getFile_ensureDir, FS.getFile_ensureDir]; exact hnone, hliveQ⟩]
  refine ⟨hget, hcount1, ?_⟩
  have := es_second_add_noop s hashFn md now2 fs1 ev bytes htype hc hext hdir1 hfind1 hex1
  simpa using this

/-- **C2** witness: adding `manual.pdf` twice from a fresh state creates the
artifact once; the replay returns the state unchanged. -/
theorem es_add_idempotent_witness :
    (FileEvent.mk FileEventType.add ["a"] "manual.pdf" "docs" ""
        (some [9, 9])).type = FileEventType.add
    ∧ ((handleFileEvent (MarkitdownSettings.mk [(".pdf", true)] "Ext" true)
          (fun _ => "h") (Except.ok "MD") 1 (FS.mk [] [])
          (FileEvent.mk FileEventType.add ["a"] "manual.pdf" "docs" ""
            (some [9, 9]))).1.countLive ["Ext"]
          (fun n => jsEndsWith n ("_" ++ "h" ++ ".md")) = 1
      ∧ handleFileEvent (MarkitdownSettings.mk [(".pdf", true)] "Ext" true)
          (fun _ => "h") (Except.ok "MD") 2
          (handleFileEvent (MarkitdownSettings.mk [(".pdf", true)] "Ext" true)
            (fun _ => "h") (Except.ok "MD") 1 (FS.mk [] [])
            (FileEvent.mk FileEventType.add ["a"] "manual.pdf" "docs" ""
              (some [9, 9]))).1
          (FileEvent.mk FileEventType.add ["a"] "manual.pdf" "docs" "" (some [9, 9]))
        = ((handleFileEvent (MarkitdownSettings.mk [(".pdf", true)] "Ext" true)
            (fun _ => "h") (Except.ok "MD") 1 (FS.mk [] [])
            (FileEvent.mk FileEventType.add ["a"] "manual.pdf" "docs" ""
              (some [9, 9]))).1, ESOutcome.alreadyExists)) := by
  refine ⟨rfl, ?_⟩
  have h := es_add_idempotent (MarkitdownSettings.mk [(".pdf", true)] "Ext" true)
    (fun _ => "h") "MD" 1 2 (FS.mk [] [])
    (FileEvent.mk FileEventType.add ["a"] "manual.pdf" "docs" "" (some [9, 9]))
    [9, 9] rfl rfl (by decide) (by decide) (by decide) (by decide) (by decide)
  exact ⟨h.2.1, h.2.2⟩

/-- The canonical destination path computed by
`MarkitdownPlugin.handleExternalFileEvent` (its alias fallback is the
sanitized monitored-root base name). -/
def mainCanonicalPath (destRoot aliasName folderBase : String) (relDir : VPath)
    (baseName fingerprint : String) : VPath :=
  destRoot :: (if aliasName = "" then sanitizeName folderBase else aliasName) :: relDir
    ++ [artifactFileName baseName fingerprint]

/-- **C7.** For an Added/Modified event whose fingerprint has no live artifact
anywhere in the destination tree, `handleExternalFileEvent` searches the
archive tree for an entry matching the `{baseName}_*{fingerprint}.md` pattern
before converting; when such an entry exists it is moved out of the archive to
the canonical path and no conversion is invoked: the outcome is the restore,
the canonical path holds the archived content, and the archive entry is
gone. -/
theorem main_restores_from_archive (s : MarkitdownSettings)
    (hashFn : List Nat → String) (convert : Except String String) (now : Nat)
    (st : PluginState) (ev : FileEvent) (bytes : List Nat) (p : VPath)
    (htype : ev.type ≠ FileEventType.unlink)
    (hc : ev.content = some bytes)
    (hext : s.typeEnabled (jsToLower (extname ev.fileName)) = true)
    (hout : ¬ s.externalSourceOutputFolder = "")
    (hfindL : st.fs.findLive [s.externalSourceOutputFolder]
        (fun n => n == artifactFileName (baseNameNoExt ev.fileName) (hashFn bytes))
      = none)
    (hfindA : st.fs.findInTree [s.externalSourceOutputFolder, ".archive"]
        (fun n => jsStartsWith n (baseNameNoExt ev.fileName ++ "_")
          && jsEndsWith n (hashFn bytes ++ ".md")) = some p)
    (hpc : p ≠ mainCanonicalPath s.externalSourceOutputFolder ev.folderAlias
        ev.folderBase ev.relDir (baseNameNoExt ev.fileName) (hashFn bytes)) :
    (handleExternalFileEvent s hashFn convert now st ev).2
      = MainOutcome.restoredFromArchive p
          (mainCanonicalPath s.externalSourceOutputFolder ev.folderAlias ev.folderBase
            ev.relDir (baseNameNoExt ev.fileName) (hashFn bytes))
    ∧ (handleExternalFileEvent s hashFn convert now st ev).1.fs.getFile
        (mainCanonicalPath s.externalSourceOutputFolder ev.folderAlias ev.folderBase
          ev.relDir (baseNameNoExt ev.fileName) (hashFn bytes)) = st.fs.getFile p
    ∧ (handleExternalFileEvent s hashFn convert now st ev).1.fs.getFile p = none := by
  obtain ⟨hm, c, hmem⟩ := st.fs.findInTree_some_match _ _ p hfindA
  have hgp : (st.fs.getFile p).isSome = true := lookupAssoc_isSome_of_mem hmem
  obtain ⟨c0, hc0⟩ := Option.isSome_iff_exists.mp hgp
  simp only [mainCanonicalPath, List.cons_append] at hpc ⊢
  unfold handleExternalFileEvent mainRestoreOrConvert
  rw [hc]
  cases hty : ev.type with
  | unlink => exact absurd hty htype
  | add =>
    simp only [hext, not_true, Bool.not_eq_true, if_false, if_neg hout, hfindL, hfindA,
      List.cons_append]
    refine ⟨trivial, ?_, ?_⟩
    · have hsrc : ((st.fs.mkdirp (s.externalSourceOutputFolder ::
          (if ev.folderAlias = "" then sanitizeName ev.folderBase else ev.folderAlias) ::
          ev.relDir)).getFile p) = some c0 := by
        rw [FS.getFile_mkdirp]
        exact hc0
      rw [FS.getFile_renameFile_dst _ _ _ _ hsrc, hc0]
    · exact FS.getFile_renameFile_src _ _ _ hpc
  | change =>
    simp only [hext, not_true, Bool.not_eq_true, if_false, if_neg hout, hfindL, hfindA,
      List.cons_append]
    refine ⟨trivial, ?_, ?_⟩
    · have hsrc : ((st.fs.mkdirp (s.externalSourceOutputFolder ::
          (if ev.folderAlias = "" then sanitizeName ev.folderBase else ev.folderAlias) ::
          ev.relDir)).getFile p) = some c0 := by
        rw [FS.getFile_mkdirp]
        exact hc0
      rw [FS.getFile_renameFile_dst _ _ _ _ hsrc, hc0]
    · exact FS.getFile_renameFile_src _ _ _ hpc

/-- **C7** witness: with `report.pdf`'s artifact only in the archive, an add
event restores it to the canonical path without converting. -/
theorem main_restores_from_archive_witness :
    (FS.mk [(["Ext", ".archive", "docs", "report_h.md"], "ARC")]
        [["Ext"], ["Ext", ".archive"], ["Ext", ".archive", "docs"]]).findInTree
        ["Ext", ".archive"]
        (fun n => jsStartsWith n (baseNameNoExt "report.pdf" ++ "_")
          && jsEndsWith n ("h" ++ ".md")) = some ["Ext", ".archive", "docs", "report_h.md"]
    ∧ ((handleExternalFileEvent (MarkitdownSettings.mk [(".pdf", true)] "Ext" true)
          (fun _ => "h") (Except.ok "MD") 0
          (PluginState.mk (FS.mk [(["Ext", ".archive", "docs", "report_h.md"], "ARC")]
            [["Ext"], ["Ext", ".archive"], ["Ext", ".archive", "docs"]]) [])
          (FileEvent.mk FileEventType.add ["sub"] "report.pdf" "docs" ""
            (some [1, 2, 3]))).2
        = MainOutcome.restoredFromArchive ["Ext", ".archive", "docs", "report_h.md"]
            (mainCanonicalPath "Ext" "" "docs" ["sub"] (baseNameNoExt "report.pdf") "h")
      ∧ (handleExternalFileEvent (MarkitdownSettings.mk [(".pdf", true)] "Ext" true)
          (fun _ => "h") (Except.ok "MD") 0
          (PluginState.mk (FS.mk [(["Ext", ".archive", "docs", "report_h.md"], "ARC")]
            [["Ext"], ["Ext", ".archive"], ["Ext", ".archive", "docs"]]) [])
          (FileEvent.mk FileEventType.add ["sub"] "report.pdf" "docs" ""
            (some [1, 2, 3]))).1.fs.getFile
          ["Ext", ".archive", "docs", "report_h.md"] = none) := by
  refine ⟨by decide, ?_⟩
  have h := main_restores_from_archive (MarkitdownSettings.mk [(".pdf", true)] "Ext" true)
    (fun _ => "h") (Except.ok "MD") 0
    (PluginState.mk (FS.mk [(["Ext", ".archive", "docs", "report_h.md"], "ARC")]
      [["Ext"], ["Ext", ".archive"], ["Ext", ".archive", "docs"]]) [])
    (FileEvent.mk FileEventType.add ["sub"] "report.pdf" "docs" "" (some [1, 2, 3]))
    [1, 2, 3] ["Ext", ".archive", "docs", "report_h.md"]
    (by decide) rfl (by decide) (by decide) (by decide) (by decide) (by decide)
  exact ⟨h.1, h.2.2⟩

/-- **C3.** At most one non-archived destination artifact exists for a given
content fingerprint: before creating a new artifact,
`EventHandlingService.handleFileAddOrChange` searches the entire destination
tree recursively — excluding every subtree named `.archive`, which the search
can never match — for a file whose name ends with `_{fingerprint}.md`; it
converts (creates a new artifact) only when that search finds nothing; and it
preserves the at-most-one-live-artifact invariant for the fingerprint. -/
theorem es_at_most_one_live_artifact (s : MarkitdownSettings)
    (hashFn : List Nat → String) (convert : Except String String) (now : Nat)
    (fs : FS) (ev : FileEvent) (bytes : List Nat)
    (hc : ev.content = some bytes)
    (hle : fs.countLive [s.externalSourceOutputFolder]
        (fun n => jsEndsWith n ("_" ++ hashFn bytes ++ ".md")) ≤ 1) :
    (((handleFileAddOrChange s hashFn convert now fs ev).2 = ESOutcome.converted
        ∨ ∃ m, (handleFileAddOrChange s hashFn convert now fs ev).2
            = ESOutcome.conversionFailed m)
      → fs.findLive [s.externalSourceOutputFolder]
          (fun n => jsEndsWith n ("_" ++ hashFn bytes ++ ".md")) = none)
    ∧ (∀ q, fs.findLive [s.externalSourceOutputFolder]
          (fun n => jsEndsWith n ("_" ++ hashFn bytes ++ ".md")) = some q →
        ([s.externalSourceOutputFolder] : VPath).isPrefixOf q.dropLast = true
        ∧ (q.dropLast.drop 1).contains ".archive" = false)
    ∧ (handleFileAddOrChange s hashFn convert now fs ev).1.countLive
        [s.externalSourceOutputFolder]
        (fun n => jsEndsWith n ("_" ++ hashFn bytes ++ ".md")) ≤ 1 := by
  have hb : ∀ q, fs.findLive [s.externalSourceOutputFolder]
      (fun n => jsEndsWith n ("_" ++ hashFn bytes ++ ".md")) = some q →
      ([s.externalSourceOutputFolder] : VPath).isPrefixOf q.dropLast = true
      ∧ (q.dropLast.drop 1).contains ".archive" = false := by
    intro q hq
    exact fs.findLive_not_in_archive _ _ q hq
  unfold handleFileAddOrChange
  rw [hc]
  by_cases hext : s.typeEnabled (jsToLower (extname ev.fileName)) = true
  · simp only [hext, not_true, Bool.not_eq_true, if_false, FS.findLive_ensureDir,
      List.cons_append]
    cases hfind : fs.findLive [s.externalSourceOutputFolder]
        (fun n => jsEndsWith n ("_" ++ hashFn bytes ++ ".md")) with
    | some p =>
      obtain ⟨hm, c, hmem⟩ := fs.findLive_some_match _ _ p hfind
      dsimp only
      by_cases hpq : p = s.externalSourceOutputFolder ::
          (if ev.folderAlias = "" then ev.folderBase else ev.folderAlias) ::
          (ev.relDir ++ [artifactFileName (baseNameNoExt ev.fileName) (hashFn bytes)])
      · rw [if_neg (show ¬ (p ≠ _) from fun hN => hN hpq)]
        have hex : fs.fileExistsAt (s.externalSourceOutputFolder ::
            (if ev.folderAlias = "" then ev.folderBase else ev.folderAlias) ::
            (ev.relDir ++ [artifactFileName (baseNameNoExt ev.fileName) (hashFn bytes)]))
            = true := by
          unfold FS.fileExistsAt
          rw [← hpq]
          exact lookupAssoc_isSome_of_mem hmem
        simp only [FS.fileExistsAt_ensureDir, hex, if_true, ite_true]
        refine ⟨?_, fun q hq => hb q (hfind.trans hq), ?_⟩
        · rintro (h | ⟨m, h⟩) <;> simp at h
        · rw [FS.countLive_ensureDir]
          exact hle
      · rw [if_pos hpq]
        refine ⟨?_, fun q hq => hb q (hfind.trans hq), ?_⟩
        · rintro (h | ⟨m, h⟩) <;> simp at h
        · have hmem2 : ∃ c1, (p, c1) ∈ ((ensureDirectoryExists fs
              (s.externalSourceOutputFolder ::
                (if ev.folderAlias = "" then ev.folderBase else ev.folderAlias) ::
                ev.relDir)).mkdirp ((s.externalSourceOutputFolder ::
              (if ev.folderAlias = "" then ev.folderBase else ev.folderAlias) ::
              (ev.relDir ++ [artifactFileName (baseNameNoExt ev.fileName)
                (hashFn bytes)]) : VPath).dropLast)).files := by
            refine ⟨c, ?_⟩
            rw [FS.files_mkdirp, FS.files_ensureDir]
            exact hmem
          refine le_trans (FS.countLive_renameFile_le _ p _ _ _ hmem2 hm) ?_
          rw [FS.countLive_mkdirp, FS.countLive_ensureDir]
          exact hle
    | none =>
      dsimp only
      have hcount0 := FS.countLive_eq_zero_of_findLive_none fs _ _ hfind
      by_cases hex : fs.fileExistsAt (s.externalSourceOutputFolder ::
          (if ev.folderAlias = "" then ev.folderBase else ev.folderAlias) ::
          (ev.relDir ++ [artifactFileName (baseNameNoExt ev.fileName) (hashFn bytes)]))
          = true
      · simp only [FS.fileExistsAt_ensureDir, hex, if_true, ite_true]
        refine ⟨fun _ => by simp [hfind], fun q hq => absurd hq (by simp), ?_⟩
        rw [FS.countLive_ensureDir]
        exact hle
      · rw [Bool.not_eq_true] at hex
        simp only [FS.fileExistsAt_ensureDir, hex, Bool.false_eq_true, if_false]
        unfold esConvertStep
        refine ⟨fun _ => by simp [hfind], fun q hq => absurd hq (by simp), ?_⟩
        cases convert with
        | ok md =>
          simp only
          rw [FS.countLive_writeFileAt, FS.countLive_ensureDir, FS.countLive_ensureDir,
            hcount0]
          split <;> split <;> omega
        | error msg =>
          simp only
          rw [FS.countLive_writeFileAt, FS.countLive_ensureDir, FS.countLive_ensureDir,
            hcount0]
          split <;> split <;> omega
  · rw [Bool.not_eq_true] at hext
    simp only [hext, Bool.false_eq_true, not_false_iff, if_true, ite_true]
    refine ⟨?_, hb, hle⟩
    rintro (h | ⟨m, h⟩) <;> simp at h

/-- **C3** witness: from a state with at most one live artifact for the
fingerprint, handling an add preserves the invariant. -/
theorem es_at_most_one_live_artifact_witness :
    (FS.mk [] []).countLive ["Ext"] (fun n => jsEndsWith n ("_" ++ "h" ++ ".md")) ≤ 1
    ∧ (handleFileAddOrChange (MarkitdownSettings.mk [(".pdf", true)] "Ext" true)
        (fun _ => "h") (Except.ok "MD") 0 (FS.mk [] [])
        (FileEvent.mk FileEventType.add [] "report.pdf" "docs" ""
          (some [1, 2, 3]))).1.countLive ["Ext"]
        (fun n => jsEndsWith n ("_" ++ "h" ++ ".md")) ≤ 1 := by
  refine ⟨by decide, ?_⟩
  have h := es_at_most_one_live_artifact (MarkitdownSettings.mk [(".pdf", true)] "Ext" true)
    (fun _ => "h") (Except.ok "MD") 0 (FS.mk [] [])
    (FileEvent.mk FileEventType.add [] "report.pdf" "docs" "" (some [1, 2, 3]))
    [1, 2, 3] rfl (by decide)
  exact h.2.2

/-- Shared specification of the unlink branch of `handleExternalFileEvent`
when no suppression-cache entry matches: the matching artifacts (and only
they) are archived, each to its timestamped archive path. -/
theorem main_unlink_no_suppression (s : MarkitdownSettings)
    (hashFn : List Nat → String) (convert : Except String String) (now : Nat)
    (st : PluginState) (ev : FileEvent) (dir archiveDir : VPath) (M : List String)
    (htype : ev.type = FileEventType.unlink)
    (hext : s.typeEnabled (jsToLower (extname ev.fileName)) = true)
    (hout : ¬ s.externalSourceOutputFolder = "")
    (hdirdef : dir = s.externalSourceOutputFolder ::
        (if ev.folderAlias = "" then sanitizeName ev.folderBase else ev.folderAlias) ::
        ev.relDir)
    (harchdef : archiveDir = s.externalSourceOutputFolder :: ".archive" ::
        (if ev.folderAlias = "" then sanitizeName ev.folderBase else ev.folderAlias) ::
        ev.relDir)
    (hMdef : M = (st.fs.filesIn dir).filter
        (fun f => jsStartsWith f (baseNameNoExt ev.fileName ++ "_")
          && jsEndsWith f ".md"))
    (hdirex : st.fs.dirExistsAt dir = true)
    (hsup : ∀ e ∈ st.recentlyMoved, ∀ f ∈ M, (dir ++ [f] : VPath) ≠ e.2.dest)
    (hnd : M.Nodup) :
    (M = [] → handleExternalFileEvent s hashFn convert now st ev
        = (st, MainOutcome.noMatchingFiles))
    ∧ (M ≠ [] →
        (handleExternalFileEvent s hashFn convert now st ev).2
          = MainOutcome.archivedDeleted M
        ∧ ∀ f ∈ M,
            (handleExternalFileEvent s hashFn convert now st ev).1.fs.getFile
              (dir ++ [f]) = none
            ∧ ((handleExternalFileEvent s hashFn convert now st ev).1.fs.getFile
                (archiveDir ++ [f ++ "_deleted_" ++ toString now ++ ".md"])).isSome
              = true) := by
  subst hdirdef
  subst harchdef
  subst hMdef
  have hdne : (s.externalSourceOutputFolder ::
      (if ev.folderAlias = "" then sanitizeName ev.folderBase else ev.folderAlias) ::
      ev.relDir : VPath)
      ≠ s.externalSourceOutputFolder :: ".archive" ::
        (if ev.folderAlias = "" then sanitizeName ev.folderBase else ev.folderAlias) ::
        ev.relDir := by
    intro he
    have hlen := congrArg List.length he
    simp at hlen
  unfold handleExternalFileEvent
  simp only [htype, hext, not_true, Bool.not_eq_true, if_false, if_neg hout, hdirex,
    ite_true, if_true, Bool.true_eq_false, not_false_iff]
  constructor
  · intro hM0
    rw [if_pos hM0]
  · intro hMne
    rw [if_neg hMne]
    have hwrm : (st.recentlyMoved.any (fun e =>
        ((st.fs.filesIn (s.externalSourceOutputFolder ::
          (if ev.folderAlias = "" then sanitizeName ev.folderBase else ev.folderAlias) ::
          ev.relDir)).filter
          (fun f => jsStartsWith f (baseNameNoExt ev.fileName ++ "_")
            && jsEndsWith f ".md")).any
          (fun f => decide ((s.externalSourceOutputFolder ::
            (if ev.folderAlias = "" then sanitizeName ev.folderBase else ev.folderAlias) ::
            ev.relDir) ++ [f] = e.2.dest)))) = false := by
      rw [List.any_eq_false]
      intro e he hinner
      obtain ⟨f, hf, hdf⟩ := List.any_eq_true.mp hinner
      exact hsup e he f hf (of_decide_eq_true hdf)
    simp only [hwrm, Bool.false_eq_true, if_false]
    refine ⟨trivial, ?_⟩
    intro f hf
    have hMfiles : ∀ g ∈ (st.fs.filesIn (s.externalSourceOutputFolder ::
        (if ev.folderAlias = "" then sanitizeName ev.folderBase else ev.folderAlias) ::
        ev.relDir)).filter
        (fun f => jsStartsWith f (baseNameNoExt ev.fileName ++ "_")
          && jsEndsWith f ".md"),
        ((st.fs.mkdirp (s.externalSourceOutputFolder :: ".archive" ::
          (if ev.folderAlias = "" then sanitizeName ev.folderBase else ev.folderAlias) ::
          ev.relDir)).getFile ((s.externalSourceOutputFolder ::
          (if ev.folderAlias = "" then sanitizeName ev.folderBase else ev.folderAlias) ::
          ev.relDir) ++ [g])).isSome = true := by
      intro g hg
      have hgfi := (List.mem_filter.mp hg).1
      obtain ⟨c, hcmem⟩ := (mem_filesIn_iff _ _ _).mp hgfi
      rw [FS.getFile_mkdirp]
      exact lookupAssoc_isSome_of_mem hcmem
    have hspec := archiveFold_spec ev now _ _ hdne _ hnd _ hMfiles f hf
    exact ⟨hspec.1, hspec.2⟩

/-- **C5.** For every Removed event on a source file with a monitored
extension, when archiving applies and no recent-move suppression matches,
`MarkitdownPlugin.handleExternalFileEvent` locates exactly the live artifacts
whose names match the deleted file's base name directly under the
corresponding destination directory and relocates each of them to
`{dest}/.archive/{alias}/{relativeDir}/{artifactName}_deleted_{timestamp}.md`,
removing it from its live location; when no matching artifact exists the event
is a no-op. -/
theorem main_unlink_archives_matching (s : MarkitdownSettings)
    (hashFn : List Nat → String) (convert : Except String String) (now : Nat)
    (st : PluginState) (ev : FileEvent) (dir archiveDir : VPath) (M : List String)
    (htype : ev.type = FileEventType.unlink)
    (hext : s.typeEnabled (jsToLower (extname ev.fileName)) = true)
    (hout : ¬ s.externalSourceOutputFolder = "")
    (hdirdef : dir = s.externalSourceOutputFolder ::
        (if ev.folderAlias = "" then sanitizeName ev.folderBase else ev.folderAlias) ::
        ev.relDir)
    (harchdef : archiveDir = s.externalSourceOutputFolder :: ".archive" ::
        (if ev.folderAlias = "" then sanitizeName ev.folderBase else ev.folderAlias) ::
        ev.relDir)
    (hMdef : M = (st.fs.filesIn dir).filter
        (fun f => jsStartsWith f (baseNameNoExt ev.fileName ++ "_")
          && jsEndsWith f ".md"))
    (hdirex : st.fs.dirExistsAt dir = true)
    (hsup : ∀ e ∈ st.recentlyMoved, ∀ f ∈ M, (dir ++ [f] : VPath) ≠ e.2.dest)
    (hnd : M.Nodup) :
    (M = [] → handleExternalFileEvent s hashFn convert now st ev
        = (st, MainOutcome.noMatchingFiles))
    ∧ (M ≠ [] →
        (handleExternalFileEvent s hashFn convert now st ev).2
          = MainOutcome.archivedDeleted M
        ∧ ∀ f ∈ M,
            (handleExternalFileEvent s hashFn convert now st ev).1.fs.getFile
              (dir ++ [f]) = none
            ∧ ((handleExternalFileEvent s hashFn convert now st ev).1.fs.getFile
                (archiveDir ++ [f ++ "_deleted_" ++ toString now ++ ".md"])).isSome
              = true) :=
  main_unlink_no_suppression s hashFn convert now st ev dir archiveDir M htype hext
    hout hdirdef harchdef hMdef hdirex hsup hnd

/-- **C5** witness: deleting `report.pdf` archives its artifact from
`Ext/docs/sub` into `Ext/.archive/docs/sub` with the `_deleted_` timestamp
suffix. -/
theorem main_unlink_archives_matching_witness :
    ((FS.mk [(["Ext", "docs", "sub", "report_h.md"], "MD")]
        [["Ext"], ["Ext", "docs"], ["Ext", "docs", "sub"]]).filesIn
        ["Ext", "docs", "sub"]).filter
        (fun f => jsStartsWith f (baseNameNoExt "report.pdf" ++ "_")
          && jsEndsWith f ".md") = ["report_h.md"]
    ∧ ((handleExternalFileEvent (MarkitdownSettings.mk [(".pdf", true)] "Ext" true)
          (fun _ => "h") (Except.ok "MD") 200
          (PluginState.mk (FS.mk [(["Ext", "docs", "sub", "report_h.md"], "MD")]
            [["Ext"], ["Ext", "docs"], ["Ext", "docs", "sub"]]) [])
          (FileEvent.mk FileEventType.unlink ["sub"] "report.pdf" "docs" "" none)).2
        = MainOutcome.archivedDeleted ["report_h.md"]
      ∧ (handleExternalFileEvent (MarkitdownSettings.mk [(".pdf", true)] "Ext" true)
          (fun _ => "h") (Except.ok "MD") 200
          (PluginState.mk (FS.mk [(["Ext", "docs", "sub", "report_h.md"], "MD")]
            [["Ext"], ["Ext", "docs"], ["Ext", "docs", "sub"]]) [])
          (FileEvent.mk FileEventType.unlink ["sub"] "report.pdf" "docs" "" none)).1.fs.getFile
          ["Ext", "docs", "sub", "report_h.md"] = none
      ∧ ((handleExternalFileEvent (MarkitdownSettings.mk [(".pdf", true)] "Ext" true)
          (fun _ => "h") (Except.ok "MD") 200
          (PluginState.mk (FS.mk [(["Ext", "docs", "sub", "report_h.md"], "MD")]
            [["Ext"], ["Ext", "docs"], ["Ext", "docs", "sub"]]) [])
          (FileEvent.mk FileEventType.unlink ["sub"] "report.pdf" "docs" "" none)).1.fs.getFile
          (["Ext", ".archive", "docs", "sub"] ++
            ["report_h.md" ++ "_deleted_" ++ toString 200 ++ ".md"])).isSome = true) := by
  refine ⟨by decide, ?_⟩
  have h := main_unlink_archives_matching (MarkitdownSettings.mk [(".pdf", true)] "Ext" true)
    (fun _ => "h") (Except.ok "MD") 200
    (PluginState.mk (FS.mk [(["Ext", "docs", "sub", "report_h.md"], "MD")]
      [["Ext"], ["Ext", "docs"], ["Ext", "docs", "sub"]]) [])
    (FileEvent.mk FileEventType.unlink ["sub"] "report.pdf" "docs" "" none)
    ["Ext", "docs", "sub"] ["Ext", ".archive", "docs", "sub"] ["report_h.md"]
    rfl (by decide) (by decide) (by decide) (by decide) (by decide) (by decide)
    (by simp) (by decide)
  obtain ⟨-, h2⟩ := h
  obtain ⟨ho, hfiles⟩ := h2 (by decide)
  have hff := hfiles "report_h.md" (List.mem_singleton.mpr rfl)
  exact ⟨ho, hff.1, hff.2⟩

/-- **C4** counterexample: a suppression-cache entry 20 seconds old — older
than the 15-second TTL — that the periodic sweep has not yet removed still
suppresses the deletion decision: the unlink returns `suppressedMove` with the
state unchanged and no archive entry created, although every matching entry
was recorded more than 15 seconds before the event. The lookup in
`handleExternalFileEvent` never consults the timestamp; only the 10-second
periodic sweep enforces the TTL. -/
theorem c4_expired_entry_still_suppresses :
    20000 - 0 > recentlyMovedTTL
    ∧ handleExternalFileEvent (MarkitdownSettings.mk [(".pdf", true)] "Ext" true)
        (fun _ => "h") (Except.ok "MD") 20000
        (PluginState.mk
          (FS.mk [(["Ext", "docs", "report_h.md"], "MD")] [["Ext"], ["Ext", "docs"]])
          [("h", MoveRecord.mk ["Ext", "docs", "report_h.md"] 0)])
        (FileEvent.mk FileEventType.unlink [] "report.pdf" "docs" "" none)
      = (PluginState.mk
          (FS.mk [(["Ext", "docs", "report_h.md"], "MD")] [["Ext"], ["Ext", "docs"]])
          [("h", MoveRecord.mk ["Ext", "docs", "report_h.md"] 0)],
         MainOutcome.suppressedMove) := by
  exact ⟨by decide, by decide⟩

/-- **C4** (amended). The 15-second TTL of the `recentlyMoved` cache is
enforced only by the periodic 10-second sweep, not at lookup time: (i) an
entry still within its TTL is never evicted by the sweep, and any matching
cache entry suppresses the deletion, so no archive entry is created within the
TTL; (ii) once the sweep has run at a time when every matching entry is older
than the TTL, the deletion is no longer treated as already-handled and the
matching artifacts are archived. Between expiry and the next sweep (at most
10 seconds) a stale entry can still suppress. -/
theorem main_unlink_ttl_sweep_suppression (s : MarkitdownSettings)
    (hashFn : List Nat → String) (convert : Except String String) (now : Nat)
    (st : PluginState) (ev : FileEvent) (dir archiveDir : VPath) (M : List String)
    (htype : ev.type = FileEventType.unlink)
    (hext : s.typeEnabled (jsToLower (extname ev.fileName)) = true)
    (hout : ¬ s.externalSourceOutputFolder = "")
    (hdirdef : dir = s.externalSourceOutputFolder ::
        (if ev.folderAlias = "" then sanitizeName ev.folderBase else ev.folderAlias) ::
        ev.relDir)
    (harchdef : archiveDir = s.externalSourceOutputFolder :: ".archive" ::
        (if ev.folderAlias = "" then sanitizeName ev.folderBase else ev.folderAlias) ::
        ev.relDir)
    (hMdef : M = (st.fs.filesIn dir).filter
        (fun f => jsStartsWith f (baseNameNoExt ev.fileName ++ "_")
          && jsEndsWith f ".md"))
    (hdirex : st.fs.dirExistsAt dir = true)
    (hnd : M.Nodup) :
    (∀ e ∈ st.recentlyMoved, ¬ (now - e.2.timestamp > recentlyMovedTTL) →
        e ∈ sweepRecentlyMoved now st.recentlyMoved)
    ∧ ((∃ e ∈ st.recentlyMoved, ∃ f ∈ M, (dir ++ [f] : VPath) = e.2.dest) →
        handleExternalFileEvent s hashFn convert now st ev
          = (st, MainOutcome.suppressedMove))
    ∧ ((∀ e ∈ st.recentlyMoved, (∃ f ∈ M, (dir ++ [f] : VPath) = e.2.dest) →
          now - e.2.timestamp > recentlyMovedTTL) → M ≠ [] →
        (handleExternalFileEvent s hashFn convert now
            (PluginState.mk st.fs (sweepRecentlyMoved now st.recentlyMoved)) ev).2
          = MainOutcome.archivedDeleted M
        ∧ ∀ f ∈ M,
            (handleExternalFileEvent s hashFn convert now
              (PluginState.mk st.fs (sweepRecentlyMoved now st.recentlyMoved)) ev).1.fs.getFile
              (dir ++ [f]) = none
            ∧ ((handleExternalFileEvent s hashFn convert now
                (PluginState.mk st.fs (sweepRecentlyMoved now st.recentlyMoved)) ev).1.fs.getFile
                (archiveDir ++ [f ++ "_deleted_" ++ toString now ++ ".md"])).isSome
              = true) := by
  refine ⟨?_, ?_, ?_⟩
  · intro e he hk
    unfold sweepRecentlyMoved
    exact List.mem_filter.mpr ⟨he, decide_eq_true hk⟩
  · rintro ⟨e, he, f, hf, heq⟩
    have hMne : M ≠ [] := fun h0 => by simp [h0] at hf
    subst hdirdef
    subst hMdef
    unfold handleExternalFileEvent
    simp only [htype, hext, not_true, Bool.not_eq_true, if_false, if_neg hout, hdirex,
      ite_true, if_true, Bool.true_eq_false, not_false_iff]
    rw [if_neg hMne]
    have hwrm : (st.recentlyMoved.any (fun e =>
        ((st.fs.filesIn (s.externalSourceOutputFolder ::
          (if ev.folderAlias = "" then sanitizeName ev.folderBase else ev.folderAlias) ::
          ev.relDir)).filter
          (fun f => jsStartsWith f (baseNameNoExt ev.fileName ++ "_")
            && jsEndsWith f ".md")).any
          (fun f => decide ((s.externalSourceOutputFolder ::
            (if ev.folderAlias = "" then sanitizeName ev.folderBase else ev.folderAlias) ::
            ev.relDir) ++ [f] = e.2.dest)))) = true := by
      rw [List.any_eq_true]
      exact ⟨e, he, List.any_eq_true.mpr ⟨f, hf, decide_eq_true heq⟩⟩
    simp only [hwrm, if_true, ite_true]
  · intro hexp hMne
    have hsup : ∀ e ∈ sweepRecentlyMoved now st.recentlyMoved, ∀ f ∈ M,
        (dir ++ [f] : VPath) ≠ e.2.dest := by
      intro e he f hf heq
      unfold sweepRecentlyMoved at he
      obtain ⟨he0, hkeep⟩ := List.mem_filter.mp he
      have : now - e.2.timestamp > recentlyMovedTTL := hexp e he0 ⟨f, hf, heq⟩
      exact (of_decide_eq_true hkeep) this
    have h := main_unlink_no_suppression s hashFn convert now
      (PluginState.mk st.fs (sweepRecentlyMoved now st.recentlyMoved)) ev dir archiveDir M
      htype hext hout hdirdef harchdef hMdef hdirex hsup hnd
    exact h.2 hMne

/-- **C4** witness: concrete run of the amended statement. An entry 8 seconds
old survives the sweep; while the expired matching entry is still cached the
unlink is suppressed unchanged; after a sweep at 20000 ms evicts it, the
matching artifact is archived. -/
theorem main_unlink_ttl_sweep_suppression_witness :
    ("k", MoveRecord.mk ["Other"] 12000) ∈ sweepRecentlyMoved 20000
        [("h", MoveRecord.mk ["Ext", "docs", "report_h.md"] 0),
         ("k", MoveRecord.mk ["Other"] 12000)]
    ∧ handleExternalFileEvent (MarkitdownSettings.mk [(".pdf", true)] "Ext" true)
        (fun _ => "h") (Except.ok "MD") 20000
        (PluginState.mk (FS.mk [(["Ext", "docs", "report_h.md"], "MD")]
          [["Ext"], ["Ext", "docs"]])
          [("h", MoveRecord.mk ["Ext", "docs", "report_h.md"] 0),
           ("k", MoveRecord.mk ["Other"] 12000)])
        (FileEvent.mk FileEventType.unlink [] "report.pdf" "docs" "" none)
      = (PluginState.mk (FS.mk [(["Ext", "docs", "report_h.md"], "MD")]
          [["Ext"], ["Ext", "docs"]])
          [("h", MoveRecord.mk ["Ext", "docs", "report_h.md"] 0),
           ("k", MoveRecord.mk ["Other"] 12000)], MainOutcome.suppressedMove)
    ∧ (handleExternalFileEvent (MarkitdownSettings.mk [(".pdf", true)] "Ext" true)
        (fun _ => "h") (Except.ok "MD") 20000
        (PluginState.mk (FS.mk [(["Ext", "docs", "report_h.md"], "MD")]
          [["Ext"], ["Ext", "docs"]])
          (sweepRecentlyMoved 20000
            [("h", MoveRecord.mk ["Ext", "docs", "report_h.md"] 0),
             ("k", MoveRecord.mk ["Other"] 12000)]))
        (FileEvent.mk FileEventType.unlink [] "report.pdf" "docs" "" none)).2
      = MainOutcome.archivedDeleted ["report_h.md"]
    ∧ (handleExternalFileEvent (MarkitdownSettings.mk [(".pdf", true)] "Ext" true)
        (fun _ => "h") (Except.ok "MD") 20000
        (PluginState.mk (FS.mk [(["Ext", "docs", "report_h.md"], "MD")]
          [["Ext"], ["Ext", "docs"]])
          (sweepRecentlyMoved 20000
            [("h", MoveRecord.mk ["Ext", "docs", "report_h.md"] 0),
             ("k", MoveRecord.mk ["Other"] 12000)]))
        (FileEvent.mk FileEventType.unlink [] "report.pdf" "docs" "" none)).1.fs.getFile
        ["Ext", "docs", "report_h.md"] = none
    ∧ ((handleExternalFileEvent (MarkitdownSettings.mk [(".pdf", true)] "Ext" true)
        (fun _ => "h") (Except.ok "MD") 20000
        (PluginState.mk (FS.mk [(["Ext", "docs", "report_h.md"], "MD")]
          [["Ext"], ["Ext", "docs"]])
          (sweepRecentlyMoved 20000
            [("h", MoveRecord.mk ["Ext", "docs", "report_h.md"] 0),
             ("k", MoveRecord.mk ["Other"] 12000)]))
        (FileEvent.mk FileEventType.unlink [] "report.pdf" "docs" "" none)).1.fs.getFile
        (["Ext", ".archive", "docs"] ++
          ["report_h.md" ++ "_deleted_" ++ toString 20000 ++ ".md"])).isSome = true := by
  have h := main_unlink_ttl_sweep_suppression (MarkitdownSettings.mk [(".pdf", true)] "Ext" true)
    (fun _ => "h") (Except.ok "MD") 20000
    (PluginState.mk (FS.mk [(["Ext", "docs", "report_h.md"], "MD")]
      [["Ext"], ["Ext", "docs"]])
      [("h", MoveRecord.mk ["Ext", "docs", "report_h.md"] 0),
       ("k", MoveRecord.mk ["Other"] 12000)])
    (FileEvent.mk FileEventType.unlink [] "report.pdf" "docs" "" none)
    ["Ext", "docs"] ["Ext", ".archive", "docs"] ["report_h.md"]
    rfl (by decide) (by decide) (by decide) (by decide) (by decide) (by decide) (by decide)
  obtain ⟨h1, h2, h3⟩ := h
  have hk := h1 ("k", MoveRecord.mk ["Other"] 12000) (by decide) (by decide)
  have hs := h2 ⟨("h", MoveRecord.mk ["Ext", "docs", "report_h.md"] 0), by decide,
    "report_h.md", by decide, by decide⟩
  obtain ⟨ho, hfiles⟩ := h3 (by decide) (by decide)
  have hff := hfiles "report_h.md" (List.mem_singleton.mpr rfl)
  exact ⟨hk, hs, ho, hff.1, hff.2⟩
